import Mathlib

/-!
# Verification of the kanoniv local reconciliation layer

A shallow embedding in Lean 4 of the Python orchestration code of the
`kanoniv` repository (`src/python/src/kanoniv/`): record ingest
(`source.py`), the top-level `reconcile` orchestration (`reconcile.py`),
persistence of results, the changelog (`changelog.py`) and the evaluation
metrics (`evaluate.py`).  Python dicts are modelled as association lists
with dict-style insertion (replace in place, or append when the key is
fresh), Python sets as `Finset`, floats as `ℚ`, JSON values as an
inductive `Jx`, and the random `uuid.uuid4()` generator as an explicit
supply `ℕ → String` of fresh strings threaded through ingest.
-/

namespace Kanoniv

/-- `(source_name, external_id)` identifying a record inside its source. -/
abbrev Key := String × String

/-- Python `str.lower()`, modelled character by character. -/
def lowerStr (s : String) : String := ⟨s.data.map Char.toLower⟩

/-! ## Dict model: association lists with Python-dict insertion semantics -/

/-- Python `dict[k]` lookup (first matching key; insertion keeps keys unique). -/
def dlookup {α β : Type} [DecidableEq α] : List (α × β) → α → Option β
  | [], _ => none
  | p :: rest, k => if p.1 = k then some p.2 else dlookup rest k

/-- Python `dict[k] = v`: replace the value in place if the key exists,
otherwise append the binding at the end. -/
def insertD {α β : Type} [DecidableEq α] (m : List (α × β)) (k : α) (v : β) :
    List (α × β) :=
  if m.any (fun p => decide (p.1 = k)) then
    m.map (fun p => if p.1 = k then (k, v) else p)
  else m ++ [(k, v)]

theorem dlookup_append {α β : Type} [DecidableEq α] (m m' : List (α × β)) (k : α) :
    dlookup (m ++ m') k = ((dlookup m k).orElse (fun _ => dlookup m' k)) := by
  induction m with
  | nil => simp [dlookup, Option.orElse]
  | cons p rest ih =>
    by_cases h : p.1 = k <;> simp [dlookup, h, ih, Option.orElse]

theorem dlookup_map_replace {α β : Type} [DecidableEq α]
    (m : List (α × β)) (k : α) (v : β) (k2 : α) :
    dlookup (m.map (fun p => if p.1 = k then (k, v) else p)) k2
      = if k2 = k then (dlookup m k).map (fun _ => v) else dlookup m k2 := by
  induction m with
  | nil => by_cases h : k2 = k <;> simp [dlookup, h]
  | cons p rest ih =>
    by_cases hp : p.1 = k
    · by_cases h2 : k2 = k
      · subst h2; simp [dlookup, hp, ih]
      · have hkk2 : ¬ (k = k2) := fun h => h2 h.symm
        have hp2 : ¬ (p.1 = k2) := by rw [hp]; exact hkk2
        simp [dlookup, hp, hp2, hkk2, h2, ih]
    · by_cases h2 : p.1 = k2
      · have hk2k : ¬ (k2 = k) := by rw [← h2]; exact hp
        simp [dlookup, hp, h2, hk2k]
      · simp [dlookup, hp, h2, ih]

theorem any_key_iff {α β : Type} [DecidableEq α] (m : List (α × β)) (k : α) :
    (m.any (fun p => decide (p.1 = k))) = true ↔ k ∈ m.map Prod.fst := by
  rw [List.any_eq_true]
  constructor
  · rintro ⟨p, hp, hpk⟩
    exact List.mem_map.mpr ⟨p, hp, by simpa using hpk⟩
  · intro h
    rcases List.mem_map.mp h with ⟨p, hp, hpk⟩
    exact ⟨p, hp, by simp [hpk]⟩

theorem isSome_dlookup_mem {α β : Type} [DecidableEq α] (m : List (α × β)) (k : α) :
    (dlookup m k).isSome ↔ k ∈ m.map Prod.fst := by
  induction m with
  | nil => simp [dlookup]
  | cons p rest ih =>
    simp only [dlookup, List.map_cons, List.mem_cons]
    by_cases h : p.1 = k
    · simp [h]
    · have h' : ¬ (k = p.1) := fun he => h he.symm
      simp [h, h', ih]

theorem dlookup_insertD {α β : Type} [DecidableEq α]
    (m : List (α × β)) (k : α) (v : β) (k2 : α) :
    dlookup (insertD m k v) k2 = if k2 = k then some v else dlookup m k2 := by
  unfold insertD
  by_cases hc : (m.any (fun p => decide (p.1 = k))) = true
  · simp only [hc, if_true, dlookup_map_replace]
    by_cases h2 : k2 = k
    · subst h2
      have hs : (dlookup m k2).isSome := (isSome_dlookup_mem m k2).mpr ((any_key_iff m k2).mp hc)
      rcases Option.isSome_iff_exists.mp hs with ⟨v0, hv0⟩
      simp [hv0]
    · simp [h2]
  · rw [if_neg hc, dlookup_append]
    by_cases h2 : k2 = k
    · subst h2
      have hn : dlookup m k2 = none := by
        cases hh : dlookup m k2 with
        | none => rfl
        | some v0 =>
          exact absurd ((any_key_iff m k2).mpr
            ((isSome_dlookup_mem m k2).mp (by simp [hh]))) hc
      rw [hn]
      simp [dlookup, Option.orElse]
    · have hone : dlookup [(k, v)] k2 = none := by
        have hne : ¬ (k = k2) := fun h => h2 h.symm
        simp [dlookup, hne]
      rw [hone, if_neg h2]
      cases dlookup m k2 <;> simp [Option.orElse]

theorem dlookup_eq_none {α β : Type} [DecidableEq α] (m : List (α × β)) (k : α) :
    dlookup m k = none ↔ k ∉ m.map Prod.fst := by
  rw [← isSome_dlookup_mem, Option.isSome_iff_ne_none]
  tauto

/-- In a dict (no duplicate keys), membership of a binding is the same as lookup. -/
theorem dlookup_eq_some_of_mem {α β : Type} [DecidableEq α]
    (m : List (α × β)) (hN : (m.map Prod.fst).Nodup) {k : α} {v : β}
    (hmem : (k, v) ∈ m) : dlookup m k = some v := by
  induction m with
  | nil => cases hmem
  | cons p rest ih =>
    simp only [List.map_cons, List.nodup_cons] at hN
    rcases List.mem_cons.mp hmem with h | h
    · subst h; simp [dlookup]
    · have : p.1 ≠ k := by
        intro he
        exact hN.1 (he ▸ (List.mem_map.mpr ⟨(k, v), h, rfl⟩))
      simp [dlookup, this, ih hN.2 h]

theorem mem_of_dlookup_eq_some {α β : Type} [DecidableEq α]
    {m : List (α × β)} {k : α} {v : β}
    (h : dlookup m k = some v) : (k, v) ∈ m := by
  induction m with
  | nil => simp [dlookup] at h
  | cons p rest ih =>
    by_cases hp : p.1 = k
    · simp only [dlookup, hp, if_true, Option.some.injEq] at h
      have hpv : p = (k, v) := by
        cases p
        simp_all
      rw [hpv]
      exact List.mem_cons_self _ _
    · simp only [dlookup, hp, if_false] at h
      exact List.mem_cons_of_mem _ (ih h)

theorem insertD_keys_nodup {α β : Type} [DecidableEq α]
    (m : List (α × β)) (k : α) (v : β) (hN : (m.map Prod.fst).Nodup) :
    ((insertD m k v).map Prod.fst).Nodup := by
  unfold insertD
  by_cases hc : m.any (fun p => decide (p.1 = k)) = true
  · rw [if_pos hc]
    have : (m.map (fun p => if p.1 = k then (k, v) else p)).map Prod.fst
        = m.map Prod.fst := by
      rw [List.map_map]
      apply List.map_congr_left
      intro p _
      by_cases h : p.1 = k <;> simp [h]
    rw [this]; exact hN
  · rw [if_neg hc, List.map_append]
    have hk : k ∉ m.map Prod.fst := by
      intro hmem
      rcases List.mem_map.mp hmem with ⟨p, hp, hpk⟩
      exact hc (List.any_eq_true.mpr ⟨p, hp, by simp [hpk]⟩)
    simp only [List.map_cons, List.map_nil]
    exact List.Nodup.append hN (List.nodup_singleton k)
      (by simpa [List.disjoint_singleton] using hk)

/-! ## Grouping: Python `dict.setdefault(k, set()).add(x)` -/

/-- One step of Python `clusters.setdefault(k, set()).add(x)`:
insert `x` into the set bound to `k`, creating the binding `{x}` if absent. -/
def addGroup {α β : Type} [DecidableEq α] [DecidableEq β]
    (groups : List (α × Finset β)) (k : α) (x : β) : List (α × Finset β) :=
  if groups.any (fun p => decide (p.1 = k)) then
    groups.map (fun p => if p.1 = k then (p.1, insert x p.2) else p)
  else groups ++ [(k, {x})]

theorem dlookup_map_addin {α β : Type} [DecidableEq α] [DecidableEq β]
    (g : List (α × Finset β)) (k : α) (x : β) (k2 : α) :
    dlookup (g.map (fun p => if p.1 = k then (p.1, insert x p.2) else p)) k2
      = if k2 = k then (dlookup g k).map (fun s => insert x s) else dlookup g k2 := by
  induction g with
  | nil => by_cases h : k2 = k <;> simp [dlookup, h]
  | cons p rest ih =>
    by_cases hp : p.1 = k
    · by_cases h2 : k2 = k
      · subst h2; simp [dlookup, hp, ih]
      · have hkk2 : ¬ (k = k2) := fun h => h2 h.symm
        have hp2 : ¬ (p.1 = k2) := by rw [hp]; exact hkk2
        simp [dlookup, hp, hp2, hkk2, h2, ih]
    · by_cases h2 : p.1 = k2
      · have hk2k : ¬ (k2 = k) := by rw [← h2]; exact hp
        simp [dlookup, hp, h2, hk2k]
      · simp [dlookup, hp, h2, ih]

theorem dlookup_addGroup {α β : Type} [DecidableEq α] [DecidableEq β]
    (g : List (α × Finset β)) (k : α) (x : β) (k2 : α) :
    dlookup (addGroup g k x) k2
      = if k2 = k then some (insert x ((dlookup g k).getD ∅)) else dlookup g k2 := by
  unfold addGroup
  by_cases hc : g.any (fun p => decide (p.1 = k)) = true
  · rw [if_pos hc, dlookup_map_addin]
    by_cases h2 : k2 = k
    · subst h2
      have hs : (dlookup g k2).isSome :=
        (isSome_dlookup_mem g k2).mpr ((any_key_iff g k2).mp hc)
      rcases Option.isSome_iff_exists.mp hs with ⟨v0, hv0⟩
      simp [hv0]
    · simp [h2]
  · rw [if_neg hc, dlookup_append]
    by_cases h2 : k2 = k
    · subst h2
      have hn : dlookup g k2 = none := by
        cases hh : dlookup g k2 with
        | none => rfl
        | some v0 =>
          exact absurd ((any_key_iff g k2).mpr
            ((isSome_dlookup_mem g k2).mp (by simp [hh]))) hc
      rw [hn]
      simp [dlookup, Option.orElse]
    · have hone : dlookup [(k, ({x} : Finset β))] k2 = none := by
        have hne : ¬ (k = k2) := fun h => h2 h.symm
        simp [dlookup, hne]
      rw [hone, if_neg h2]
      cases dlookup g k2 <;> simp [Option.orElse]

theorem addGroup_keys_nodup {α β : Type} [DecidableEq α] [DecidableEq β]
    (g : List (α × Finset β)) (k : α) (x : β)
    (hN : (g.map Prod.fst).Nodup) : ((addGroup g k x).map Prod.fst).Nodup := by
  unfold addGroup
  by_cases hc : g.any (fun p => decide (p.1 = k)) = true
  · rw [if_pos hc]
    have : (g.map (fun p => if p.1 = k then (p.1, insert x p.2) else p)).map Prod.fst
        = g.map Prod.fst := by
      rw [List.map_map]
      apply List.map_congr_left
      intro p _
      by_cases h : p.1 = k <;> simp [h]
    rw [this]; exact hN
  · rw [if_neg hc, List.map_append]
    have hk : k ∉ g.map Prod.fst := by
      intro hmem
      exact hc ((any_key_iff g k).mpr hmem)
    simp only [List.map_cons, List.map_nil]
    exact List.Nodup.append hN (List.nodup_singleton k)
      (by simpa [List.disjoint_singleton] using hk)

/-- The set of first components of entries of `l` whose second component is `k`. -/
def groupSet {α β : Type} [DecidableEq α] [DecidableEq β]
    (l : List (β × α)) (k : α) : Finset β :=
  ((l.filter (fun p => decide (p.2 = k))).map Prod.fst).toFinset

theorem mem_groupSet {α β : Type} [DecidableEq α] [DecidableEq β]
    (l : List (β × α)) (k : α) (x : β) :
    x ∈ groupSet l k ↔ (x, k) ∈ l := by
  unfold groupSet
  simp only [List.mem_toFinset, List.mem_map, List.mem_filter, decide_eq_true_eq]
  constructor
  · rintro ⟨p, ⟨hp, hk⟩, hx⟩
    cases p
    simp_all
  · intro h
    exact ⟨(x, k), ⟨h, rfl⟩, rfl⟩

/-- Python: `for p in l: groups.setdefault(p[1], set()).add(p[0])`. -/
def groupPairs {α β : Type} [DecidableEq α] [DecidableEq β]
    (l : List (β × α)) : List (α × Finset β) :=
  l.foldl (fun acc p => addGroup acc p.2 p.1) []

theorem dlookup_groupFold {α β : Type} [DecidableEq α] [DecidableEq β]
    (l : List (β × α)) (acc : List (α × Finset β)) (k : α) :
    dlookup (l.foldl (fun a p => addGroup a p.2 p.1) acc) k =
      match dlookup acc k with
      | some s => some (groupSet l k ∪ s)
      | none => if groupSet l k = ∅ then none else some (groupSet l k) := by
  induction l generalizing acc with
  | nil =>
    have hg : groupSet ([] : List (β × α)) k = ∅ := by simp [groupSet]
    cases h : dlookup acc k <;> simp [List.foldl, hg, h]
  | cons p rest ih =>
    simp only [List.foldl_cons]
    rw [ih, dlookup_addGroup]
    by_cases hk : k = p.2
    · subst hk
      have hg : groupSet (p :: rest) p.2 = insert p.1 (groupSet rest p.2) := by
        ext y
        simp only [mem_groupSet, Finset.mem_insert, List.mem_cons]
        constructor
        · rintro (h | h)
          · cases p; left; simp_all
          · right; exact h
        · rintro (h | h)
          · subst h; left; exact Prod.ext rfl rfl
          · right; exact h
      rw [if_pos rfl, hg]
      cases h : dlookup acc p.2 with
      | some s =>
        simp only [h, Option.getD_some]
        congr 1
        ext y
        simp only [Finset.mem_union, Finset.mem_insert]
        tauto
      | none =>
        have hne : insert p.1 (groupSet rest p.2) ≠ ∅ := by
          intro hcon
          exact absurd (hcon ▸ Finset.mem_insert_self p.1 (groupSet rest p.2))
            (Finset.not_mem_empty p.1)
        simp only [h, Option.getD_none, if_neg hne]
        congr 1
        ext y
        simp only [Finset.mem_union, Finset.mem_insert, Finset.mem_singleton]
        tauto
    · rw [if_neg hk]
      have hg : groupSet (p :: rest) k = groupSet rest k := by
        ext y
        simp only [mem_groupSet, List.mem_cons]
        constructor
        · rintro (h | h)
          · cases p
            simp only [Prod.mk.injEq] at h
            exact absurd h.2 hk
          · exact h
        · intro h; right; exact h
      rw [hg]

theorem groupPairs_keys_nodup {α β : Type} [DecidableEq α] [DecidableEq β]
    (l : List (β × α)) : ((groupPairs l).map Prod.fst).Nodup := by
  unfold groupPairs
  have : ∀ acc : List (α × Finset β), (acc.map Prod.fst).Nodup →
      ((l.foldl (fun a p => addGroup a p.2 p.1) acc).map Prod.fst).Nodup := by
    induction l with
    | nil => intro acc h; simpa using h
    | cons p rest ih =>
      intro acc h
      exact ih _ (addGroup_keys_nodup acc p.2 p.1 h)
  exact this [] (by simp)

theorem dlookup_groupPairs {α β : Type} [DecidableEq α] [DecidableEq β]
    (l : List (β × α)) (k : α) :
    dlookup (groupPairs l) k =
      if groupSet l k = ∅ then none else some (groupSet l k) := by
  unfold groupPairs
  rw [dlookup_groupFold]
  simp [dlookup]

theorem mem_groupPairs {α β : Type} [DecidableEq α] [DecidableEq β]
    (l : List (β × α)) (k : α) (s : Finset β) :
    (k, s) ∈ groupPairs l ↔ s = groupSet l k ∧ s ≠ ∅ := by
  constructor
  · intro h
    have := dlookup_eq_some_of_mem (groupPairs l) (groupPairs_keys_nodup l) h
    rw [dlookup_groupPairs] at this
    by_cases hg : groupSet l k = ∅
    · rw [if_pos hg] at this; cases this
    · rw [if_neg hg] at this
      cases this
      exact ⟨rfl, hg⟩
  · rintro ⟨hs, hne⟩
    subst hs
    apply mem_of_dlookup_eq_some
    rw [dlookup_groupPairs, if_neg hne]

/-! ## Canonical record pairs (Python `combinations(sorted(cluster), 2)`) -/

/-- Python tuple comparison on `(source_name, external_id)`: lexicographic,
character by character (`String.data` is the character list). -/
def keyLt (a b : Key) : Prop :=
  a.1.data < b.1.data ∨ (a.1 = b.1 ∧ a.2.data < b.2.data)

instance (a b : Key) : Decidable (keyLt a b) := by
  unfold keyLt; infer_instance

theorem keyLt_irrefl (a : Key) : ¬ keyLt a a := by
  simp [keyLt]

theorem ne_of_keyLt {a b : Key} (h : keyLt a b) : a ≠ b := by
  intro he
  rw [he] at h
  exact keyLt_irrefl b h

/-- The canonical unordered pairs of a member set: every 2-element subset,
listed once, ordered ascending — the set underlying Python
`combinations(sorted(cluster), 2)`. -/
def pairsOf (s : Finset Key) : Finset (Key × Key) :=
  (s ×ˢ s).filter (fun p => keyLt p.1 p.2)

theorem mem_pairsOf (s : Finset Key) (p : Key × Key) :
    p ∈ pairsOf s ↔ p.1 ∈ s ∧ p.2 ∈ s ∧ keyLt p.1 p.2 := by
  unfold pairsOf
  simp only [Finset.mem_filter, Finset.mem_product]
  tauto

theorem pairsOf_eq_empty_of_card_le_one (s : Finset Key) (h : s.card ≤ 1) :
    pairsOf s = ∅ := by
  ext p
  simp only [mem_pairsOf, Finset.not_mem_empty, iff_false]
  rintro ⟨h1, h2, hlt⟩
  have hne := ne_of_keyLt hlt
  have : 1 < s.card := Finset.one_lt_card.mpr ⟨p.1, h1, p.2, h2, hne⟩
  omega

/-- Union of canonical pairs over a list of clusters (Python builds one set
across all clusters). -/
def pairsFromClusters (cs : List (Finset Key)) : Finset (Key × Key) :=
  cs.foldr (fun c acc => pairsOf c ∪ acc) ∅

theorem mem_pairsFromClusters (cs : List (Finset Key)) (p : Key × Key) :
    p ∈ pairsFromClusters cs ↔ ∃ c ∈ cs, p ∈ pairsOf c := by
  induction cs with
  | nil => simp [pairsFromClusters]
  | cons c rest ih =>
    simp only [pairsFromClusters, List.foldr_cons, Finset.mem_union, List.mem_cons]
    rw [show rest.foldr (fun c acc => pairsOf c ∪ acc) ∅ = pairsFromClusters rest from rfl]
    rw [ih]
    constructor
    · rintro (h | ⟨c2, hc2, hp⟩)
      · exact ⟨c, Or.inl rfl, h⟩
      · exact ⟨c2, Or.inr hc2, hp⟩
    · rintro ⟨c2, (rfl | hc2), hp⟩
      · exact Or.inl hp
      · exact Or.inr ⟨c2, hc2, hp⟩

/-! ## Data model -/

/-- JSON value: the values the engine passes through Python untyped.  Numbers
are modelled as rationals. -/
inductive Jx where
  | null : Jx
  | bool : Bool → Jx
  | num : ℚ → Jx
  | str : String → Jx
  | arr : List Jx → Jx
  | obj : List (String × Jx) → Jx

/-- `NormalizedEntity`-compatible dict produced by `Source.to_entities`
(source.py): `{id, tenant_id, external_id, entity_type, data, source_name,
valid_from, valid_to, last_updated}`. -/
structure Entity where
  id : String
  tenant_id : String
  external_id : String
  entity_type : String
  data : List (String × String)
  source_name : String
  valid_from : Option String
  valid_to : Option String
  last_updated : String
deriving DecidableEq

/-- `FeedbackLabel` (reconcile.py): a user-provided label for a pair. -/
structure FeedbackLabel where
  entity_a_id : String
  entity_b_id : String
  source_a : String
  source_b : String
  label : String
deriving DecidableEq

/-- One entry of `spec.sources`: a name and the `canonical → source column`
attribute mapping. -/
structure SpecSource where
  name : String
  attributes : List (String × String)
deriving DecidableEq

/-- The part of a parsed `Spec` that `reconcile` reads: the entity name,
the source declarations and the raw YAML text (fed to the native spec
hash). -/
structure SpecData where
  entity : String
  sources : List SpecSource
  raw : String
deriving DecidableEq

/-- A `Source` (source.py): name, optional primary key, the schema's column
names (`schema().columns`) and the stringified rows (`iter_rows()`). -/
structure SourceData where
  name : String
  primaryKey : Option String
  columns : List String
  rows : List (List (String × String))
deriving DecidableEq

/-- What the native engine returns to `reconcile` (the `raw` dict). -/
structure EngineOutput where
  clusters : List (List String)
  golden_records : List (List (String × String))
  decisions : Jx
  telemetry : Jx
  trained_fs_params : Jx

/-- A `ReconcileResult` together with its private attributes
(`_entity_map`, `_trained_fs_params`, `_spec_hash`, `_entities`,
`_feedback`). -/
structure ResultState where
  clusters : List (List String)
  golden_records : List (List (String × String))
  decisions : Jx
  telemetry : Jx
  entity_map : List (String × Key)
  trained_fs_params : Jx
  spec_hash : Option String
  entities : Option (List Entity)
  feedback : List FeedbackLabel

/-! ## `Source.to_entities` (source.py lines 160-189)

`uuid.uuid4()` is modelled as an explicit supply `ℕ → String` of fresh
strings together with a counter threaded through the loop; each call to
`uuid4` consumes the next index.  `datetime.now()` is the run input `now`. -/

def tenantDefault : String := "00000000-0000-0000-0000-000000000000"

/-- The loop body of `Source.to_entities`, threading the uuid counter.
For each row: `ext_id = row.get(primary_key, "") if primary_key else ""`,
replaced by a fresh uuid when empty; then `id = uuid4()`. -/
def toEntitiesAux (name : String) (pk : Option String) (entityType now : String)
    (supply : ℕ → String) : List (List (String × String)) → ℕ → List Entity × ℕ
  | [], n => ([], n)
  | row :: rest, n =>
    let ext0 : String := match pk with
      | some k => (dlookup row k).getD ""
      | none => ""
    let extPair : String × ℕ := if ext0 = "" then (supply n, n + 1) else (ext0, n)
    let eid := supply extPair.2
    let tail := toEntitiesAux name pk entityType now supply rest (extPair.2 + 1)
    ({ id := eid, tenant_id := tenantDefault, external_id := extPair.1,
       entity_type := entityType, data := row, source_name := name,
       valid_from := none, valid_to := none, last_updated := now } :: tail.1,
     tail.2)

/-- `Source.to_entities` proper: counter starts wherever the run's uuid
stream currently is. -/
def toEntities (src : SourceData) (entityType now : String)
    (supply : ℕ → String) (n : ℕ) : List Entity × ℕ :=
  toEntitiesAux src.name src.primaryKey entityType now supply src.rows n

/-! ## Ingest attribute remapping (reconcile.py lines 326-349) -/

/-- `canonical = reverse_map.get(col) or lower_map.get(col.lower(), col)`:
the canonical output key chosen for a source column. -/
def canonicalOf (reverseMap : List (String × String)) (col : String) : String :=
  let lowerMap := reverseMap.map (fun p => (lowerStr p.1, p.2))
  match dlookup reverseMap col with
  | some c => if c = "" then (dlookup lowerMap (lowerStr col)).getD col else c
  | none => (dlookup lowerMap (lowerStr col)).getD col

/-- Rebuild one entity's `data` dict: `mapped[canonical] = val` for each
`(col, val)` in the raw data. -/
def remapRow (reverseMap : List (String × String)) (row : List (String × String)) :
    List (String × String) :=
  row.foldl (fun mapped kv => insertD mapped (canonicalOf reverseMap kv.1) kv.2) []

/-- `attr_maps` (reconcile.py step 7): per source name, the reversed
`source column → canonical` dict, only for sources with a nonempty name and
nonempty attributes. -/
def buildAttrMaps (specSources : List SpecSource) :
    List (String × List (String × String)) :=
  specSources.foldl (fun acc ss =>
    let rev := ss.attributes.foldl (fun m p => insertD m p.2 p.1) []
    if ss.attributes ≠ [] ∧ ss.name ≠ "" then insertD acc ss.name rev else acc) []

/-- Ingest one source (reconcile.py step 8): `to_entities`, then remap each
entity's data when a reverse map exists for the source. -/
def ingestSource (src : SourceData) (attrMaps : List (String × List (String × String)))
    (entityType now : String) (supply : ℕ → String) (n : ℕ) : List Entity × ℕ :=
  let te := toEntities src entityType now supply n
  let rm := (dlookup attrMaps src.name).getD []
  (if rm = [] then te.1
   else te.1.map (fun e => { e with data := remapRow rm e.data }), te.2)

/-- `all_entities`: ingest every source in order, sharing the uuid stream. -/
def ingestAll (sources : List SourceData)
    (attrMaps : List (String × List (String × String)))
    (entityType now : String) (supply : ℕ → String) (n : ℕ) : List Entity × ℕ :=
  match sources with
  | [] => ([], n)
  | src :: rest =>
    let first := ingestSource src attrMaps entityType now supply n
    let tail := ingestAll rest attrMaps entityType now supply first.2
    (first.1 ++ tail.1, tail.2)

/-! ## Source/spec preflight (`_validate_source_attributes`, reconcile.py 213-253) -/

/-- An entry of the `errors` list of `_validate_source_attributes`. -/
inductive PreflightIssue where
  | sourceNotInSpec (sourceName : String)
  | columnMissing (sourceName canonical sourceCol : String)
deriving DecidableEq

/-- `spec_by_name = {s.get("name", ""): s for s in spec_sources}`. -/
def specByName (specSources : List SpecSource) : List (String × SpecSource) :=
  specSources.foldl (fun acc s => insertD acc s.name s) []

/-- The per-source column check: for each `(canonical, source_col)` of the
spec's attributes, error when no actual column matches `source_col` exactly
or case-insensitively. -/
def columnIssues (src : SourceData) (ss : SpecSource) : List PreflightIssue :=
  ss.attributes.filterMap (fun p =>
    if (src.columns.any (fun c => decide (c = p.2)))
        ∨ (src.columns.any (fun c => decide (lowerStr c = lowerStr p.2))) then none
    else some (.columnMissing src.name p.1 p.2))

/-- `_validate_source_attributes`: returns `(errors, warnings)`; warnings
are the names of sources the spec declares but the caller did not provide. -/
def validateSourceAttributes (sources : List SourceData)
    (specSources : List SpecSource) : List PreflightIssue × List String :=
  let byName := specByName specSources
  let errors := sources.foldl (fun errs src =>
    match dlookup byName src.name with
    | none => errs ++ [.sourceNotInSpec src.name]
    | some ss => errs ++ columnIssues src ss) []
  let warnings := (byName.map Prod.fst).filterMap (fun name =>
    if sources.any (fun s => decide (s.name = name)) then none else some name)
  (errors, warnings)

/-! ## `reconcile` (reconcile.py 256-430) -/

/-- The two exceptions `reconcile` can raise before reaching the engine:
`validate(spec).raise_on_error()` and the source-spec mismatch
`ValueError`. -/
inductive ReconcileError where
  | specValidation (errors : List String)
  | sourceSpecMismatch (errors : List PreflightIssue)

/-- Warnings emitted with `warnings.warn` during a run. -/
inductive RunWarning where
  | sourceNotProvided (name : String)
  | specChanged
deriving DecidableEq

/-- The native (Rust) functions `reconcile` delegates to.  Their bodies are
outside the embedded Python layer; `reconcile`'s control flow is proved for
every implementation of this interface. -/
structure NativeApi where
  specHash : String → String
  validateSpec : String → List String
  reconcileLocal : String → List Entity → EngineOutput
  reconcileWithFeedback : String → List Entity → List FeedbackLabel → Jx → ℚ → EngineOutput
  reconcileIncremental : String → List Entity → List Entity → List (List String) → Jx → EngineOutput

/-- `entity_type` extraction (reconcile.py step 6, string case):
`entity_type = entity or "entity"`. -/
def entityTypeOf (spec : SpecData) : String :=
  if spec.entity = "" then "entity" else spec.entity

/-- `entity_map = {e["id"]: (e["source_name"], e["external_id"]) for e in all_entities}`. -/
def buildEntityMap (entities : List Entity) : List (String × Key) :=
  entities.foldl (fun acc e => insertD acc e.id (e.source_name, e.external_id)) []

/-- Python `{**a, **b}`. -/
def dictUnion {α β : Type} [DecidableEq α] (a b : List (α × β)) : List (α × β) :=
  b.foldl (fun acc p => insertD acc p.1 p.2) a

/-- The top-level `reconcile` function, with the uuid supply, the ingest
timestamp and the native engine as explicit inputs.  Returns the result and
the list of warnings the run emitted, or the raised exception. -/
def reconcile (api : NativeApi) (sources : List SourceData) (spec : SpecData)
    (previous : Option ResultState) (feedback : List FeedbackLabel)
    (learningRate : ℚ) (supply : ℕ → String) (now : String) :
    Except ReconcileError (ResultState × List RunWarning) :=
  -- 1. validate spec
  let verrs := api.validateSpec spec.raw
  if verrs ≠ [] then .error (.specValidation verrs) else
  -- 2. pre-flight source/spec check
  let pf := validateSourceAttributes sources spec.sources
  if pf.1 ≠ [] then .error (.sourceSpecMismatch pf.1) else
  let warnings0 := pf.2.map RunWarning.sourceNotProvided
  -- 4./5. spec hash and spec-change warning
  let currentSpecHash := api.specHash spec.raw
  let warnings1 := warnings0 ++ (match previous with
    | some p => match p.spec_hash with
      | some h => if h ≠ currentSpecHash then [RunWarning.specChanged] else []
      | none => []
    | none => [])
  -- 6./7./8. ingest with attribute remapping
  let entityType := entityTypeOf spec
  let attrMaps := buildAttrMaps spec.sources
  let allEntities := (ingestAll sources attrMaps entityType now supply 0).1
  -- 9. entity map
  let entityMap := buildEntityMap allEntities
  let allFeedback := (match previous with
    | some p => p.feedback
    | none => []) ++ feedback
  match previous with
  | some p =>
    -- 10. incremental path
    let existing := p.entities.getD []
    let out := api.reconcileIncremental spec.raw allEntities existing
      p.clusters p.trained_fs_params
    .ok ({ clusters := out.clusters,
           golden_records := out.golden_records,
           decisions := out.decisions,
           telemetry := out.telemetry,
           entity_map := dictUnion p.entity_map entityMap,
           trained_fs_params := out.trained_fs_params,
           spec_hash := some currentSpecHash,
           entities := some (existing ++ allEntities),
           feedback := allFeedback }, warnings1)
  | none =>
    -- full path: with feedback when any, else plain
    let out := if allFeedback ≠ [] then
        api.reconcileWithFeedback spec.raw allEntities allFeedback Jx.null learningRate
      else api.reconcileLocal spec.raw allEntities
    .ok ({ clusters := out.clusters,
           golden_records := out.golden_records,
           decisions := out.decisions,
           telemetry := out.telemetry,
           entity_map := entityMap,
           trained_fs_params := out.trained_fs_params,
           spec_hash := some currentSpecHash,
           entities := some allEntities,
           feedback := allFeedback }, warnings1)

/-! ## Persistence (`ReconcileResult.save` / `.load`, reconcile.py 113-151)

`save` serializes to a JSON document; `load` reads it back.  The JSON text
round-trip of the standard library is outside the embedding: persistence is
modelled at the JSON value level. -/

def jget (j : Jx) (k : String) : Option Jx :=
  match j with
  | .obj l => dlookup l k
  | _ => none

def encStrList (l : List String) : Jx := .arr (l.map .str)

def encClusters (cs : List (List String)) : Jx := .arr (cs.map encStrList)

def encStrDict (d : List (String × String)) : Jx :=
  .obj (d.map (fun p => (p.1, .str p.2)))

def encGolden (gs : List (List (String × String))) : Jx := .arr (gs.map encStrDict)

def encEntityMap (m : List (String × Key)) : Jx :=
  .obj (m.map (fun p => (p.1, .arr [.str p.2.1, .str p.2.2])))

def encOptStr : Option String → Jx
  | none => .null
  | some s => .str s

/-- An entity dict as stored in `_entities` and serialized verbatim. -/
def encEntity (e : Entity) : Jx :=
  .obj [("id", .str e.id), ("tenant_id", .str e.tenant_id),
        ("external_id", .str e.external_id), ("entity_type", .str e.entity_type),
        ("data", encStrDict e.data), ("source_name", .str e.source_name),
        ("valid_from", encOptStr e.valid_from), ("valid_to", encOptStr e.valid_to),
        ("last_updated", .str e.last_updated)]

/-- `FeedbackLabel.to_dict`. -/
def encFeedback (f : FeedbackLabel) : Jx :=
  .obj [("entity_a_id", .str f.entity_a_id), ("entity_b_id", .str f.entity_b_id),
        ("source_a", .str f.source_a), ("source_b", .str f.source_b),
        ("label", .str f.label)]

/-- `ReconcileResult.save`: the JSON document written to the `.knv` file. -/
def save (r : ResultState) : Jx :=
  .obj [("version", .num 1),
        ("clusters", encClusters r.clusters),
        ("golden_records", encGolden r.golden_records),
        ("decisions", r.decisions),
        ("telemetry", r.telemetry),
        ("entity_map", encEntityMap r.entity_map),
        ("trained_fs_params", r.trained_fs_params),
        ("spec_hash", encOptStr r.spec_hash),
        ("entities", match r.entities with
          | none => .null
          | some es => .arr (es.map encEntity)),
        ("feedback", .arr (r.feedback.map encFeedback))]

def decStr : Jx → Option String
  | .str s => some s
  | _ => none

/-- Decode every element of a JSON array, failing when any element fails. -/
def decList {α : Type} (dec : Jx → Option α) : List Jx → Option (List α)
  | [] => some []
  | x :: xs =>
    match dec x, decList dec xs with
    | some a, some as => some (a :: as)
    | _, _ => none

def decStrList : Jx → Option (List String)
  | .arr l => decList decStr l
  | _ => none

def decClusters : Jx → Option (List (List String))
  | .arr l => decList decStrList l
  | _ => none

def decStrPairs : List (String × Jx) → Option (List (String × String))
  | [] => some []
  | p :: rest =>
    match decStr p.2, decStrPairs rest with
    | some s, some tail => some ((p.1, s) :: tail)
    | _, _ => none

def decStrDict : Jx → Option (List (String × String))
  | .obj l => decStrPairs l
  | _ => none

def decGolden : Jx → Option (List (List (String × String)))
  | .arr l => decList decStrDict l
  | _ => none

def decKeyVal : Jx → Option Key
  | .arr [.str a, .str b] => some (a, b)
  | _ => none

def decKeyPairs : List (String × Jx) → Option (List (String × Key))
  | [] => some []
  | p :: rest =>
    match decKeyVal p.2, decKeyPairs rest with
    | some k, some tail => some ((p.1, k) :: tail)
    | _, _ => none

def decEntityMap : Jx → Option (List (String × Key))
  | .obj l => decKeyPairs l
  | _ => none

def decOptStr : Jx → Option (Option String)
  | .null => some none
  | .str s => some (some s)
  | _ => none

def decEntity (j : Jx) : Option Entity :=
  match jget j "id", jget j "tenant_id", jget j "external_id",
      jget j "entity_type", jget j "data", jget j "source_name",
      jget j "valid_from", jget j "valid_to", jget j "last_updated" with
  | some i, some t, some x, some et, some d, some sn, some vf, some vt, some lu =>
    match decStr i, decStr t, decStr x, decStr et, decStrDict d, decStr sn,
        decOptStr vf, decOptStr vt, decStr lu with
    | some i, some t, some x, some et, some d, some sn, some vf, some vt, some lu =>
      some { id := i, tenant_id := t, external_id := x, entity_type := et,
             data := d, source_name := sn, valid_from := vf, valid_to := vt,
             last_updated := lu }
    | _, _, _, _, _, _, _, _, _ => none
  | _, _, _, _, _, _, _, _, _ => none

def decFeedback (j : Jx) : Option FeedbackLabel :=
  match jget j "entity_a_id", jget j "entity_b_id", jget j "source_a",
      jget j "source_b", jget j "label" with
  | some a, some b, some sa, some sb, some l =>
    match decStr a, decStr b, decStr sa, decStr sb, decStr l with
    | some a, some b, some sa, some sb, some l =>
      some { entity_a_id := a, entity_b_id := b, source_a := sa,
             source_b := sb, label := l }
    | _, _, _, _, _ => none
  | _, _, _, _, _ => none

def decEntities : Jx → Option (Option (List Entity))
  | .null => some none
  | .arr l => (decList decEntity l).map some
  | _ => none

/-- `ReconcileResult.load`: `clusters`, `golden_records`, `decisions` and
`telemetry` are required keys (`raw[...]`); the private attributes are read
with `raw.get(...)` defaults. -/
def load (j : Jx) : Option ResultState := do
  let cj ← jget j "clusters"
  let gj ← jget j "golden_records"
  let dj ← jget j "decisions"
  let tj ← jget j "telemetry"
  let clusters ← decClusters cj
  let goldens ← decGolden gj
  let entityMap ← decEntityMap ((jget j "entity_map").getD (.obj []))
  let specHash ← decOptStr ((jget j "spec_hash").getD .null)
  let entities ← decEntities ((jget j "entities").getD .null)
  let feedback ← match (jget j "feedback").getD (.arr []) with
    | .arr l => decList decFeedback l
    | _ => none
  some { clusters := clusters, golden_records := goldens, decisions := dj,
         telemetry := tj, entity_map := entityMap,
         trained_fs_params := (jget j "trained_fs_params").getD .null,
         spec_hash := specHash, entities := entities, feedback := feedback }

/-! ## Changelog (changelog.py) -/

inductive ChangeType where
  | created | grown | merged | split | removed
deriving DecidableEq

/-- `_build_source_to_kanoniv`, first loop: `uuid → kanoniv_id` over clusters
aligned with golden records (`enumerate` guarded by
`i < len(golden_records)`, hence the `zip`). -/
def buildUuidToKid (clusters : List (List String))
    (goldens : List (List (String × String))) : List (String × String) :=
  (clusters.zip goldens).foldl (fun acc p =>
    p.1.foldl (fun acc2 u =>
      insertD acc2 u ((dlookup p.2 "kanoniv_id").getD "")) acc) []

/-- `_build_source_to_kanoniv`: `(source_name, external_id) → kanoniv_id`,
skipping records whose kanoniv id resolves to the empty string. -/
def buildSourceToKanoniv (r : ResultState) : List (Key × String) :=
  let u2k := buildUuidToKid r.clusters r.golden_records
  r.entity_map.foldl (fun acc p =>
    let kid := (dlookup u2k p.1).getD ""
    if kid ≠ "" then insertD acc p.2 kid else acc) []

/-- The previous kanoniv ids referenced by the existing members of one
current entity (`prev_kids` in `_compute_changes`). -/
def prevKidsOf (pl : List (Key × String)) (members : Finset Key) : Finset String :=
  (members.filter (fun m => (dlookup pl m).isSome)).biUnion
    (fun m => (dlookup pl m).toFinset)

/-- Classification of one current entity (`_compute_changes`, current-side
loop); `none` means unchanged. -/
def classifyCurrent (pl : List (Key × String)) (members : Finset Key) :
    Option ChangeType :=
  let existing := members.filter (fun m => (dlookup pl m).isSome)
  let newRecords := members.filter (fun m => dlookup pl m = none)
  if existing = ∅ then some .created
  else if 1 < (prevKidsOf pl members).card then some .merged
  else if newRecords ≠ ∅ then some .grown
  else none

/-- `prev_kids_seen`: all previous kanoniv ids referenced from the current
side. -/
def seenKids (pl : List (Key × String))
    (currEntities : List (String × Finset Key)) : Finset String :=
  currEntities.foldl (fun acc p => acc ∪ prevKidsOf pl p.2) ∅

/-- Classification of one previous entity (`_compute_changes`,
previous-side loop); `none` means no change entry. -/
def classifyPrev (cl : List (Key × String)) (seen : Finset String)
    (kid : String) (members : Finset Key) : Option ChangeType :=
  if kid ∉ seen then some .removed
  else
    let currKids := (members.filter (fun m => (dlookup cl m).isSome)).biUnion
      (fun m => (dlookup cl m).toFinset)
    if 1 < currKids.card then some .split else none

/-- `_compute_changes`: the `(kanoniv_id, change_type)` entries of the
returned `ChangeLog`, in emission order, plus `unchanged_count`. -/
def computeChanges (prev curr : ResultState) : List (String × ChangeType) × ℕ :=
  let pl := buildSourceToKanoniv prev
  let cl := buildSourceToKanoniv curr
  let prevEntities := groupPairs pl
  let currEntities := groupPairs cl
  let seen := seenKids pl currEntities
  let currentChanges := currEntities.filterMap (fun p =>
    (classifyCurrent pl p.2).map (fun ct => (p.1, ct)))
  let unchangedCount := (currEntities.filter
    (fun p => classifyCurrent pl p.2 = none)).length
  let prevChanges := prevEntities.filterMap (fun p =>
    (classifyPrev cl seen p.1 p.2).map (fun ct => (p.1, ct)))
  (currentChanges ++ prevChanges, unchangedCount)

/-! ## Evaluation (evaluate.py) -/

/-- `_clusters_from_result`: UUID clusters to `(source_name, external_id)`
member sets, keeping sets with at least two members. -/
def clustersFromResult (r : ResultState) : List (Finset Key) :=
  r.clusters.filterMap (fun uc =>
    let s := (uc.filterMap (fun uid => dlookup r.entity_map uid)).toFinset
    if 2 ≤ s.card then some s else none)

/-- `_parse_ground_truth`, dict branch: member lists to sets, dropping
entities with fewer than two (distinct) members. -/
def parseGroundTruthDict (gt : List (String × List Key)) : List (Finset Key) :=
  gt.filterMap (fun p =>
    let s := p.2.toFinset
    if 2 ≤ s.card then some s else none)

/-- One row of the tabular ground-truth form. -/
structure GtRow where
  record_id : String
  source_name : String
  true_entity_id : String
deriving DecidableEq

/-- `_parse_ground_truth`, DataFrame branch: group `(source_name, record_id)`
by `true_entity_id`, keep groups of size at least two. -/
def parseGroundTruthRows (rows : List GtRow) : List (Finset Key) :=
  let groups := rows.foldl (fun acc row =>
    addGroup acc row.true_entity_id (row.source_name, row.record_id)) []
  (groups.map Prod.snd).filter (fun s => 2 ≤ s.card)

/-- Layer-3 metrics of `_evaluate`. -/
structure GTMetrics where
  tp : ℕ
  fp : ℕ
  fneg : ℕ
  precision : ℚ
  recallScore : ℚ
  f1 : ℚ
  predicted_pairs : ℕ
  ground_truth_pairs : ℕ
  ground_truth_clusters : ℕ
deriving DecidableEq

/-- `gt_records`: every record present in the ground-truth labels. -/
def gtRecordsOf (gtClusters : List (Finset Key)) : Finset Key :=
  gtClusters.foldr (· ∪ ·) ∅

/-- `filtered_predicted`: predicted clusters intersected with the label
records, keeping intersections of at least two records. -/
def filteredPredicted (r : ResultState) (gtClusters : List (Finset Key)) :
    List (Finset Key) :=
  (clustersFromResult r).filterMap (fun c =>
    let f := c ∩ gtRecordsOf gtClusters
    if 2 ≤ f.card then some f else none)

/-- `predicted_pairs` of `_evaluate`. -/
def predictedPairsOf (r : ResultState) (gtClusters : List (Finset Key)) :
    Finset (Key × Key) :=
  pairsFromClusters (filteredPredicted r gtClusters)

/-- The ground-truth part of `_evaluate` (evaluate.py 256-302), applied to
already-parsed ground-truth clusters: filter predicted clusters to label
records, compute pair-level tp/fp/fn and precision/recall/F1. -/
def groundTruthMetrics (r : ResultState) (gtClusters : List (Finset Key)) :
    GTMetrics :=
  let predictedPairs := predictedPairsOf r gtClusters
  let gtPairs := pairsFromClusters gtClusters
  let tp := (predictedPairs ∩ gtPairs).card
  let fp := (predictedPairs \ gtPairs).card
  let fneg := (gtPairs \ predictedPairs).card
  let precision : ℚ := if 0 < tp + fp then (tp : ℚ) / ((tp : ℚ) + (fp : ℚ)) else 1
  let recallScore : ℚ := if 0 < tp + fneg then (tp : ℚ) / ((tp : ℚ) + (fneg : ℚ)) else 1
  let f1 : ℚ := if 0 < precision + recallScore
    then 2 * precision * recallScore / (precision + recallScore) else 0
  { tp := tp, fp := fp, fneg := fneg, precision := precision, recallScore := recallScore,
    f1 := f1, predicted_pairs := predictedPairs.card,
    ground_truth_pairs := gtPairs.card,
    ground_truth_clusters := gtClusters.length }

/-- `ReconcileResult.evaluate(ground_truth)` with the dict label form. -/
def evaluateDict (r : ResultState) (gt : List (String × List Key)) : GTMetrics :=
  groundTruthMetrics r (parseGroundTruthDict gt)

/-! ## Theorems: evaluation layer -/

theorem pairsFromClusters_guard (cs : List (Finset Key)) :
    pairsFromClusters (cs.filterMap (fun c => if 2 ≤ c.card then some c else none))
      = pairsFromClusters cs := by
  ext p
  simp only [mem_pairsFromClusters, List.mem_filterMap]
  constructor
  · rintro ⟨c, ⟨c0, hc0, hguard⟩, hp⟩
    by_cases h : 2 ≤ c0.card
    · rw [if_pos h] at hguard
      injection hguard with h2
      subst h2
      exact ⟨c0, hc0, hp⟩
    · rw [if_neg h] at hguard
      cases hguard
  · rintro ⟨c, hc, hp⟩
    by_cases h : 2 ≤ c.card
    · exact ⟨c, ⟨c, hc, if_pos h⟩, hp⟩
    · exfalso
      rw [pairsOf_eq_empty_of_card_le_one c (by omega)] at hp
      exact Finset.not_mem_empty p hp

theorem pairsFromClusters_filter_card (cs : List (Finset Key)) :
    pairsFromClusters (cs.filter (fun s => decide (2 ≤ s.card)))
      = pairsFromClusters cs := by
  ext p
  simp only [mem_pairsFromClusters, List.mem_filter, decide_eq_true_eq]
  constructor
  · rintro ⟨c, ⟨hc, _⟩, hp⟩
    exact ⟨c, hc, hp⟩
  · rintro ⟨c, hc, hp⟩
    by_cases h : 2 ≤ c.card
    · exact ⟨c, ⟨hc, h⟩, hp⟩
    · exfalso
      rw [pairsOf_eq_empty_of_card_le_one c (by omega)] at hp
      exact Finset.not_mem_empty p hp

/-- C8: ground-truth label parsing drops member sets of size below two, in
both the dict and the tabular form, and the dropped entities contribute no
pairs: the pair set of the parsed labels equals the pair set of the raw
(unfiltered) entity groups. -/
theorem parse_ground_truth_drops_small (gt : List (String × List Key))
    (rows : List GtRow) :
    (∀ s ∈ parseGroundTruthDict gt, 2 ≤ s.card)
    ∧ pairsFromClusters (parseGroundTruthDict gt)
        = pairsFromClusters (gt.map (fun p => p.2.toFinset))
    ∧ (∀ s ∈ parseGroundTruthRows rows, 2 ≤ s.card)
    ∧ pairsFromClusters (parseGroundTruthRows rows)
        = pairsFromClusters ((rows.foldl (fun acc row =>
            addGroup acc row.true_entity_id (row.source_name, row.record_id))
            []).map Prod.snd) := by
  have hdict : parseGroundTruthDict gt
      = (gt.map (fun p => p.2.toFinset)).filterMap
          (fun c => if 2 ≤ c.card then some c else none) := by
    rw [List.filterMap_map]
    rfl
  refine ⟨?_, ?_, ?_, ?_⟩
  · intro s hs
    rw [hdict] at hs
    rcases List.mem_filterMap.mp hs with ⟨c, _, hguard⟩
    by_cases h : 2 ≤ c.card
    · rw [if_pos h] at hguard; cases hguard; exact h
    · rw [if_neg h] at hguard; cases hguard
  · rw [hdict, pairsFromClusters_guard]
  · intro s hs
    unfold parseGroundTruthRows at hs
    rcases List.mem_filter.mp hs with ⟨_, h2⟩
    exact of_decide_eq_true h2
  · unfold parseGroundTruthRows
    exact pairsFromClusters_filter_card _

/-- C8 witness: a dict label set with a singleton entity and a 2-entity;
the singleton is dropped and the parsed pair set still equals the raw one. -/
theorem parse_ground_truth_drops_small_witness :
    (∀ s ∈ parseGroundTruthDict [("e1", [(("s", "1") : Key)]),
        ("e2", [("s", "2"), ("s", "3")])], 2 ≤ s.card)
    ∧ pairsFromClusters (parseGroundTruthDict [("e1", [(("s", "1") : Key)]),
        ("e2", [("s", "2"), ("s", "3")])])
        = pairsFromClusters ([("e1", [(("s", "1") : Key)]),
            ("e2", [("s", "2"), ("s", "3")])].map (fun p => p.2.toFinset))
    ∧ (∀ s ∈ parseGroundTruthRows [(⟨"1", "s", "e1"⟩ : GtRow)], 2 ≤ s.card)
    ∧ pairsFromClusters (parseGroundTruthRows [(⟨"1", "s", "e1"⟩ : GtRow)])
        = pairsFromClusters (([(⟨"1", "s", "e1"⟩ : GtRow)].foldl (fun acc row =>
            addGroup acc row.true_entity_id (row.source_name, row.record_id))
            []).map Prod.snd) :=
  parse_ground_truth_drops_small
    [("e1", [(("s", "1") : Key)]), ("e2", [("s", "2"), ("s", "3")])]
    [(⟨"1", "s", "e1"⟩ : GtRow)]

/-! Projection facts for `groundTruthMetrics`. -/

theorem gtm_tp (r : ResultState) (g : List (Finset Key)) :
    (groundTruthMetrics r g).tp
      = (predictedPairsOf r g ∩ pairsFromClusters g).card := rfl

theorem gtm_fp (r : ResultState) (g : List (Finset Key)) :
    (groundTruthMetrics r g).fp
      = (predictedPairsOf r g \ pairsFromClusters g).card := rfl

theorem gtm_fneg (r : ResultState) (g : List (Finset Key)) :
    (groundTruthMetrics r g).fneg
      = (pairsFromClusters g \ predictedPairsOf r g).card := rfl

theorem gtm_predicted (r : ResultState) (g : List (Finset Key)) :
    (groundTruthMetrics r g).predicted_pairs = (predictedPairsOf r g).card := rfl

theorem gtm_gtpairs (r : ResultState) (g : List (Finset Key)) :
    (groundTruthMetrics r g).ground_truth_pairs = (pairsFromClusters g).card := rfl

theorem gtm_precision (r : ResultState) (g : List (Finset Key)) :
    (groundTruthMetrics r g).precision
      = if 0 < (groundTruthMetrics r g).tp + (groundTruthMetrics r g).fp
        then ((groundTruthMetrics r g).tp : ℚ)
          / (((groundTruthMetrics r g).tp : ℚ) + ((groundTruthMetrics r g).fp : ℚ))
        else 1 := rfl

theorem gtm_recall (r : ResultState) (g : List (Finset Key)) :
    (groundTruthMetrics r g).recallScore
      = if 0 < (groundTruthMetrics r g).tp + (groundTruthMetrics r g).fneg
        then ((groundTruthMetrics r g).tp : ℚ)
          / (((groundTruthMetrics r g).tp : ℚ) + ((groundTruthMetrics r g).fneg : ℚ))
        else 1 := rfl

theorem gtm_f1 (r : ResultState) (g : List (Finset Key)) :
    (groundTruthMetrics r g).f1
      = if 0 < (groundTruthMetrics r g).precision + (groundTruthMetrics r g).recallScore
        then 2 * (groundTruthMetrics r g).precision * (groundTruthMetrics r g).recallScore
          / ((groundTruthMetrics r g).precision + (groundTruthMetrics r g).recallScore)
        else 0 := rfl

theorem gtm_tp_add_fp (r : ResultState) (g : List (Finset Key)) :
    (groundTruthMetrics r g).tp + (groundTruthMetrics r g).fp
      = (groundTruthMetrics r g).predicted_pairs := by
  rw [gtm_tp, gtm_fp, gtm_predicted]
  exact Finset.card_inter_add_card_sdiff _ _

theorem gtm_tp_add_fneg (r : ResultState) (g : List (Finset Key)) :
    (groundTruthMetrics r g).tp + (groundTruthMetrics r g).fneg
      = (groundTruthMetrics r g).ground_truth_pairs := by
  rw [gtm_tp, gtm_fneg, gtm_gtpairs, Finset.inter_comm]
  exact Finset.card_inter_add_card_sdiff _ _

theorem gtm_precision_nonneg (r : ResultState) (g : List (Finset Key)) :
    0 ≤ (groundTruthMetrics r g).precision := by
  rw [gtm_precision]
  split
  · positivity
  · norm_num

theorem gtm_recall_nonneg (r : ResultState) (g : List (Finset Key)) :
    0 ≤ (groundTruthMetrics r g).recallScore := by
  rw [gtm_recall]
  split
  · positivity
  · norm_num

/-- C9 (amended): with zero predicted pairs precision is 1; with zero
ground-truth pairs recall is 1; and F1 is 0 exactly when precision or
recall is 0 (not only when their sum is 0). -/
theorem evaluate_division_guards (r : ResultState) (g : List (Finset Key)) :
    ((groundTruthMetrics r g).predicted_pairs = 0 →
      (groundTruthMetrics r g).precision = 1)
    ∧ ((groundTruthMetrics r g).ground_truth_pairs = 0 →
      (groundTruthMetrics r g).recallScore = 1)
    ∧ ((groundTruthMetrics r g).f1 = 0 ↔
      (groundTruthMetrics r g).precision = 0
        ∨ (groundTruthMetrics r g).recallScore = 0) := by
  refine ⟨?_, ?_, ?_⟩
  · intro h
    have hz : (groundTruthMetrics r g).tp + (groundTruthMetrics r g).fp = 0 := by
      rw [gtm_tp_add_fp]; exact h
    rw [gtm_precision, if_neg (by omega)]
  · intro h
    have hz : (groundTruthMetrics r g).tp + (groundTruthMetrics r g).fneg = 0 := by
      rw [gtm_tp_add_fneg]; exact h
    rw [gtm_recall, if_neg (by omega)]
  · have hP := gtm_precision_nonneg r g
    have hR := gtm_recall_nonneg r g
    rw [gtm_f1]
    by_cases hc : 0 < (groundTruthMetrics r g).precision
        + (groundTruthMetrics r g).recallScore
    · rw [if_pos hc]
      constructor
      · intro h0
        rw [div_eq_zero_iff] at h0
        rcases h0 with h0 | h0
        · rw [mul_assoc] at h0
          rcases mul_eq_zero.mp h0 with h1 | h1
          · norm_num at h1
          · exact mul_eq_zero.mp h1
        · exact absurd h0 (ne_of_gt hc)
      · rintro (h0 | h0)
        · rw [h0]
          ring_nf
        · rw [h0]
          ring_nf
    · rw [if_neg hc]
      constructor
      · intro _
        left
        linarith
      · intro _
        rfl

/-- A `ReconcileResult` with no clusters and no records. -/
def emptyResult : ResultState :=
  { clusters := [], golden_records := [], decisions := .null, telemetry := .null,
    entity_map := [], trained_fs_params := .null, spec_hash := none,
    entities := none, feedback := [] }

/-- C9 counterexample: with no predicted pairs and one labeled pair the code
yields precision 1, recall 0, hence F1 = 0 while precision + recall = 1:
F1 can be 0 without precision + recall being 0. -/
theorem evaluate_f1_zero_counterexample :
    (evaluateDict emptyResult [("e1", [("s", "1"), ("s", "2")])]).f1 = 0
    ∧ (evaluateDict emptyResult [("e1", [("s", "1"), ("s", "2")])]).precision
      + (evaluateDict emptyResult [("e1", [("s", "1"), ("s", "2")])]).recallScore
      = 1 := by
  have hdef : evaluateDict emptyResult [("e1", [("s", "1"), ("s", "2")])]
      = groundTruthMetrics emptyResult
          (parseGroundTruthDict [("e1", [("s", "1"), ("s", "2")])]) := rfl
  rw [hdef]
  have htp : (groundTruthMetrics emptyResult
      (parseGroundTruthDict [("e1", [("s", "1"), ("s", "2")])])).tp = 0 := by decide
  have hfp : (groundTruthMetrics emptyResult
      (parseGroundTruthDict [("e1", [("s", "1"), ("s", "2")])])).fp = 0 := by decide
  have hfneg : (groundTruthMetrics emptyResult
      (parseGroundTruthDict [("e1", [("s", "1"), ("s", "2")])])).fneg = 1 := by decide
  have hprec : (groundTruthMetrics emptyResult
      (parseGroundTruthDict [("e1", [("s", "1"), ("s", "2")])])).precision = 1 := by
    rw [gtm_precision, htp, hfp]
    norm_num
  have hrec : (groundTruthMetrics emptyResult
      (parseGroundTruthDict [("e1", [("s", "1"), ("s", "2")])])).recallScore = 0 := by
    rw [gtm_recall, htp, hfneg]
    norm_num
  have hf1 : (groundTruthMetrics emptyResult
      (parseGroundTruthDict [("e1", [("s", "1"), ("s", "2")])])).f1 = 0 := by
    rw [gtm_f1, hprec, hrec]
    norm_num
  rw [hf1, hprec, hrec]
  norm_num

/-- C9 witness: at the counterexample input the predicted-pair count is 0
and precision is reported as 1. -/
theorem evaluate_division_guards_witness :
    (groundTruthMetrics emptyResult
      (parseGroundTruthDict [("e1", [("s", "1"), ("s", "2")])])).precision = 1 :=
  (evaluate_division_guards emptyResult
    (parseGroundTruthDict [("e1", [("s", "1"), ("s", "2")])])).1 (by decide)

/-- The predicted member sets before any size filtering: each UUID cluster
mapped through the entity map. -/
def rawPredictedClusters (r : ResultState) : List (Finset Key) :=
  r.clusters.map (fun uc =>
    (uc.filterMap (fun uid => dlookup r.entity_map uid)).toFinset)

/-- The code's predicted pair set equals the unfiltered predicted pair set
restricted to pairs of records that appear in the ground-truth labels. -/
theorem predictedPairsOf_restrict (r : ResultState) (g : List (Finset Key)) :
    predictedPairsOf r g
      = (pairsFromClusters (rawPredictedClusters r)).filter
          (fun p => p.1 ∈ gtRecordsOf g ∧ p.2 ∈ gtRecordsOf g) := by
  ext p
  simp only [predictedPairsOf, filteredPredicted, clustersFromResult,
    rawPredictedClusters, mem_pairsFromClusters, List.mem_filterMap,
    List.mem_map, Finset.mem_filter]
  constructor
  · rintro ⟨c, ⟨c1, ⟨uc, huc, hg1⟩, hg2⟩, hp⟩
    by_cases h2 : 2 ≤ (c1 ∩ gtRecordsOf g).card
    · rw [if_pos h2] at hg2
      injection hg2 with hg2
      subst hg2
      by_cases h1 : 2 ≤ ((uc.filterMap (fun uid => dlookup r.entity_map uid)).toFinset).card
      · rw [if_pos h1] at hg1
        injection hg1 with hg1
        subst hg1
        rcases (mem_pairsOf _ _).mp hp with ⟨hpa, hpb, hlt⟩
        rcases Finset.mem_inter.mp hpa with ⟨hpa1, hpa2⟩
        rcases Finset.mem_inter.mp hpb with ⟨hpb1, hpb2⟩
        exact ⟨⟨_, ⟨uc, huc, rfl⟩, (mem_pairsOf _ _).mpr ⟨hpa1, hpb1, hlt⟩⟩,
          hpa2, hpb2⟩
      · rw [if_neg h1] at hg1
        cases hg1
    · rw [if_neg h2] at hg2
      cases hg2
  · rintro ⟨⟨c, ⟨uc, huc, hc⟩, hp⟩, hga, hgb⟩
    subst hc
    rcases (mem_pairsOf _ _).mp hp with ⟨hpa, hpb, hlt⟩
    have hne : p.1 ≠ p.2 := ne_of_keyLt hlt
    set S := (uc.filterMap (fun uid => dlookup r.entity_map uid)).toFinset with hS
    have h1 : 2 ≤ S.card :=
      Finset.one_lt_card.mpr ⟨p.1, hpa, p.2, hpb, hne⟩
    have hpa' : p.1 ∈ S ∩ gtRecordsOf g := Finset.mem_inter.mpr ⟨hpa, hga⟩
    have hpb' : p.2 ∈ S ∩ gtRecordsOf g := Finset.mem_inter.mpr ⟨hpb, hgb⟩
    have h2 : 2 ≤ (S ∩ gtRecordsOf g).card :=
      Finset.one_lt_card.mpr ⟨p.1, hpa', p.2, hpb', hne⟩
    exact ⟨S ∩ gtRecordsOf g, ⟨S, ⟨uc, huc, if_pos h1⟩, if_pos h2⟩,
      (mem_pairsOf _ _).mpr ⟨hpa', hpb', hlt⟩⟩

/-- C5: with ground truth supplied, the evaluation restricts predicted pairs
to records present in the labels, counts tp/fp/fn at the pair level against
that restricted set, and computes precision, recall and F1 by the standard
formulas whenever the denominators are nonzero. -/
theorem evaluate_ground_truth_metrics (r : ResultState)
    (gt : List (String × List Key)) :
    (evaluateDict r gt).tp
      = (((pairsFromClusters (rawPredictedClusters r)).filter
            (fun p => p.1 ∈ gtRecordsOf (parseGroundTruthDict gt)
              ∧ p.2 ∈ gtRecordsOf (parseGroundTruthDict gt)))
          ∩ pairsFromClusters (parseGroundTruthDict gt)).card
    ∧ (evaluateDict r gt).fp
      = (((pairsFromClusters (rawPredictedClusters r)).filter
            (fun p => p.1 ∈ gtRecordsOf (parseGroundTruthDict gt)
              ∧ p.2 ∈ gtRecordsOf (parseGroundTruthDict gt)))
          \ pairsFromClusters (parseGroundTruthDict gt)).card
    ∧ (evaluateDict r gt).fneg
      = (pairsFromClusters (parseGroundTruthDict gt)
          \ ((pairsFromClusters (rawPredictedClusters r)).filter
            (fun p => p.1 ∈ gtRecordsOf (parseGroundTruthDict gt)
              ∧ p.2 ∈ gtRecordsOf (parseGroundTruthDict gt)))).card
    ∧ (0 < (evaluateDict r gt).tp + (evaluateDict r gt).fp →
        (evaluateDict r gt).precision
          = ((evaluateDict r gt).tp : ℚ)
            / (((evaluateDict r gt).tp : ℚ) + ((evaluateDict r gt).fp : ℚ)))
    ∧ (0 < (evaluateDict r gt).tp + (evaluateDict r gt).fneg →
        (evaluateDict r gt).recallScore
          = ((evaluateDict r gt).tp : ℚ)
            / (((evaluateDict r gt).tp : ℚ) + ((evaluateDict r gt).fneg : ℚ)))
    ∧ (0 < (evaluateDict r gt).precision + (evaluateDict r gt).recallScore →
        (evaluateDict r gt).f1
          = 2 * (evaluateDict r gt).precision * (evaluateDict r gt).recallScore
            / ((evaluateDict r gt).precision + (evaluateDict r gt).recallScore)) := by
  have hdef : evaluateDict r gt = groundTruthMetrics r (parseGroundTruthDict gt) := rfl
  rw [hdef]
  refine ⟨?_, ?_, ?_, ?_, ?_, ?_⟩
  · rw [gtm_tp, predictedPairsOf_restrict]
  · rw [gtm_fp, predictedPairsOf_restrict]
  · rw [gtm_fneg, predictedPairsOf_restrict]
  · intro h
    rw [gtm_precision, if_pos h]
  · intro h
    rw [gtm_recall, if_pos h]
  · intro h
    rw [gtm_f1, if_pos h]

/-- An example result for the evaluation witnesses: three records, one
two-record predicted cluster. -/
def exampleResult : ResultState :=
  { clusters := [["u1", "u2"], ["u3"]],
    golden_records := [[("kanoniv_id", "kidA")], [("kanoniv_id", "kidB")]],
    decisions := .null, telemetry := .null,
    entity_map := [("u1", ("s", "1")), ("u2", ("s", "2")), ("u3", ("s", "3"))],
    trained_fs_params := .null, spec_hash := some "h0", entities := none,
    feedback := [] }

/-- C5 witness: on a concrete run whose denominators are all positive, the
three division formulas hold as equalities. -/
theorem evaluate_ground_truth_metrics_witness :
    (evaluateDict exampleResult [("e1", [("s", "1"), ("s", "2")])]).precision
      = ((evaluateDict exampleResult [("e1", [("s", "1"), ("s", "2")])]).tp : ℚ)
        / (((evaluateDict exampleResult [("e1", [("s", "1"), ("s", "2")])]).tp : ℚ)
          + ((evaluateDict exampleResult [("e1", [("s", "1"), ("s", "2")])]).fp : ℚ))
    ∧ (evaluateDict exampleResult [("e1", [("s", "1"), ("s", "2")])]).recallScore
      = ((evaluateDict exampleResult [("e1", [("s", "1"), ("s", "2")])]).tp : ℚ)
        / (((evaluateDict exampleResult [("e1", [("s", "1"), ("s", "2")])]).tp : ℚ)
          + ((evaluateDict exampleResult [("e1", [("s", "1"), ("s", "2")])]).fneg : ℚ)) :=
  ⟨(evaluate_ground_truth_metrics exampleResult
      [("e1", [("s", "1"), ("s", "2")])]).2.2.2.1 (by decide),
   (evaluate_ground_truth_metrics exampleResult
      [("e1", [("s", "1"), ("s", "2")])]).2.2.2.2.1 (by decide)⟩

/-! ## Theorems: persistence round-trip -/

theorem decList_map {α : Type} (dec : Jx → Option α) (enc : α → Jx)
    (h : ∀ x, dec (enc x) = some x) (l : List α) :
    decList dec (l.map enc) = some l := by
  induction l with
  | nil => rfl
  | cons x xs ih => simp [decList, h, ih]

theorem decStr_enc (s : String) : decStr (.str s) = some s := rfl

theorem decStrList_enc (l : List String) : decStrList (encStrList l) = some l := by
  unfold decStrList encStrList
  exact decList_map decStr Jx.str decStr_enc l

theorem decClusters_enc (cs : List (List String)) :
    decClusters (encClusters cs) = some cs := by
  unfold decClusters encClusters
  exact decList_map decStrList encStrList decStrList_enc cs

theorem decStrPairs_enc (d : List (String × String)) :
    decStrPairs (d.map (fun p => (p.1, Jx.str p.2))) = some d := by
  induction d with
  | nil => rfl
  | cons p rest ih => simp [decStrPairs, decStr, ih]

theorem decStrDict_enc (d : List (String × String)) :
    decStrDict (encStrDict d) = some d := by
  unfold decStrDict encStrDict
  exact decStrPairs_enc d

theorem decGolden_enc (gs : List (List (String × String))) :
    decGolden (encGolden gs) = some gs := by
  unfold decGolden encGolden
  exact decList_map decStrDict encStrDict decStrDict_enc gs

theorem decKeyPairs_enc (m : List (String × Key)) :
    decKeyPairs (m.map (fun p => (p.1, Jx.arr [.str p.2.1, .str p.2.2])))
      = some m := by
  induction m with
  | nil => rfl
  | cons p rest ih => simp [decKeyPairs, decKeyVal, ih]

theorem decEntityMap_enc (m : List (String × Key)) :
    decEntityMap (encEntityMap m) = some m := by
  unfold decEntityMap encEntityMap
  exact decKeyPairs_enc m

theorem decOptStr_enc (o : Option String) : decOptStr (encOptStr o) = some o := by
  cases o <;> rfl

theorem decEntity_enc (e : Entity) : decEntity (encEntity e) = some e := by
  cases e
  simp [decEntity, encEntity, jget, dlookup, decStr, decOptStr_enc, decStrDict_enc]

theorem decFeedback_enc (f : FeedbackLabel) : decFeedback (encFeedback f) = some f := by
  cases f
  simp [decFeedback, encFeedback, jget, dlookup, decStr]

theorem decEntities_enc (es : Option (List Entity)) :
    decEntities (match es with
      | none => Jx.null
      | some l => Jx.arr (l.map encEntity)) = some es := by
  cases es with
  | none => rfl
  | some l =>
    simp [decEntities, decList_map decEntity encEntity decEntity_enc l]

/-- C4: persistence round-trip — loading a saved result restores every
field needed for a subsequent incremental run: clusters, golden records,
decisions, telemetry, entity map, trained FS parameters, spec hash,
entities and feedback. -/
theorem save_load_roundtrip (r : ResultState) : load (save r) = some r := by
  have hc : jget (save r) "clusters" = some (encClusters r.clusters) := rfl
  have hg : jget (save r) "golden_records" = some (encGolden r.golden_records) := rfl
  have hd : jget (save r) "decisions" = some r.decisions := rfl
  have ht : jget (save r) "telemetry" = some r.telemetry := rfl
  have hm : jget (save r) "entity_map" = some (encEntityMap r.entity_map) := rfl
  have hf : jget (save r) "trained_fs_params" = some r.trained_fs_params := rfl
  have hs : jget (save r) "spec_hash" = some (encOptStr r.spec_hash) := rfl
  have he : jget (save r) "entities" = some (match r.entities with
      | none => Jx.null
      | some es => Jx.arr (es.map encEntity)) := rfl
  have hb : jget (save r) "feedback" = some (Jx.arr (r.feedback.map encFeedback)) := rfl
  unfold load
  rw [hc, hg, hd, ht, hm, hf, hs, he, hb]
  simp only [Option.getD_some, Option.bind_eq_bind, Option.some_bind,
    decClusters_enc, decGolden_enc, decEntityMap_enc, decOptStr_enc,
    decEntities_enc, decList_map decFeedback encFeedback decFeedback_enc]

/-! ## Theorems: ingest attribute remapping -/

theorem isSome_dlookup_remapFold (rm : List (String × String))
    (row : List (String × String)) (acc : List (String × String)) (k : String) :
    (dlookup (row.foldl (fun mapped kv =>
        insertD mapped (canonicalOf rm kv.1) kv.2) acc) k).isSome
      ↔ (dlookup acc k).isSome ∨ ∃ p ∈ row, canonicalOf rm p.1 = k := by
  induction row generalizing acc with
  | nil => simp
  | cons kv rest ih =>
    simp only [List.foldl_cons, List.mem_cons]
    rw [ih]
    rw [show dlookup (insertD acc (canonicalOf rm kv.1) kv.2) k
        = if k = canonicalOf rm kv.1 then some kv.2 else dlookup acc k
      from dlookup_insertD acc (canonicalOf rm kv.1) kv.2 k]
    by_cases hk : k = canonicalOf rm kv.1
    · simp only [if_pos hk]
      constructor
      · intro _
        right
        exact ⟨kv, Or.inl rfl, hk.symm⟩
      · intro _
        left
        simp
    · simp only [if_neg hk]
      constructor
      · rintro (h | ⟨p, hp, hc⟩)
        · exact Or.inl h
        · exact Or.inr ⟨p, Or.inr hp, hc⟩
      · rintro (h | ⟨p, (rfl | hp), hc⟩)
        · exact Or.inl h
        · exact absurd hc.symm hk
        · exact Or.inr ⟨p, hp, hc⟩

/-- C2 (amended): ingest rewrites every mapped source column to its
canonical name, but a column absent from the mapping is kept under its own
name rather than dropped: the keys of the remapped data are exactly the
images of the row's columns under `canonicalOf`, which is the identity on
unmapped columns. -/
theorem remap_rewrites_keys (rm : List (String × String))
    (row : List (String × String)) (k : String) :
    ((dlookup (remapRow rm row) k).isSome ↔ ∃ p ∈ row, canonicalOf rm p.1 = k)
    ∧ (∀ col c, dlookup rm col = some c → c ≠ "" → canonicalOf rm col = c)
    ∧ (∀ col, dlookup rm col = none
        → dlookup (rm.map (fun p => (lowerStr p.1, p.2))) (lowerStr col) = none
        → canonicalOf rm col = col) := by
  refine ⟨?_, ?_, ?_⟩
  · unfold remapRow
    rw [isSome_dlookup_remapFold]
    simp [dlookup]
  · intro col c h hne
    simp [canonicalOf, h, hne]
  · intro col h hl
    simp [canonicalOf, h, hl]

/-- The spec sources of the C2 example: one source `s` mapping canonical
`email` to source column `email_addr`. -/
def specSourcesC2 : List SpecSource := [⟨"s", [("email", "email_addr")]⟩]

/-- The C2 example source: a row with a mapped column and an unmapped
`extra` column. -/
def srcC2 : SourceData :=
  ⟨"s", some "rid", ["rid", "email_addr", "extra"],
    [[("rid", "r1"), ("email_addr", "x"), ("extra", "y")]]⟩

/-- C2 counterexample: the unmapped column `extra` is NOT dropped — after
ingest the entity's data still contains it (under its original key), and the
mapped column was rewritten to `email`. -/
theorem ingest_keeps_unmapped_counterexample :
    ((ingestAll [srcC2] (buildAttrMaps specSourcesC2) "person" "t"
        (fun _ => "uuid") 0).1.map
      (fun e => (dlookup e.data "extra", dlookup e.data "email",
        dlookup e.data "email_addr")))
      = [(some "y", some "x", none)] := by decide

/-- C2 witness: the key characterization applied at the example row — the
`extra` key is present in the remapped data, and the mapped column resolves
to its canonical name. -/
theorem remap_rewrites_keys_witness :
    ((dlookup (remapRow [("email_addr", "email")]
        [("email_addr", "x"), ("extra", "y")]) "extra").isSome
      ↔ ∃ p ∈ [("email_addr", "x"), ("extra", "y")],
          canonicalOf [("email_addr", "email")] p.1 = "extra")
    ∧ canonicalOf [("email_addr", "email")] "email_addr" = "email" :=
  ⟨(remap_rewrites_keys [("email_addr", "email")]
      [("email_addr", "x"), ("extra", "y")] "extra").1,
   (remap_rewrites_keys [("email_addr", "email")]
      [("email_addr", "x"), ("extra", "y")] "extra").2.1 "email_addr" "email"
      (by decide) (by decide)⟩

/-! ## Theorems: source/spec preflight -/

theorem specByName_eq_map (l : List SpecSource)
    (hN : (l.map SpecSource.name).Nodup) :
    specByName l = l.map (fun s => (s.name, s)) := by
  unfold specByName
  suffices h : ∀ acc : List (String × SpecSource),
      (∀ s ∈ l, s.name ∉ acc.map Prod.fst) →
      l.foldl (fun acc s => insertD acc s.name s) acc
        = acc ++ l.map (fun s => (s.name, s)) by
    simpa using h [] (by simp)
  induction l with
  | nil => intro acc _; simp
  | cons s rest ih =>
    intro acc hacc
    simp only [List.map_cons, List.nodup_cons] at hN
    simp only [List.foldl_cons, List.map_cons]
    have hfresh : ¬ (acc.any (fun p => decide (p.1 = s.name)) = true) := by
      intro hany
      exact hacc s (List.mem_cons_self s rest) ((any_key_iff acc s.name).mp hany)
    rw [show insertD acc s.name s = acc ++ [(s.name, s)] from by
      unfold insertD
      rw [if_neg hfresh]]
    rw [ih hN.2 (acc ++ [(s.name, s)]) ?_]
    · simp
    · intro t ht
      simp only [List.map_append, List.map_cons, List.map_nil, List.mem_append,
        List.mem_singleton]
      rintro (h | h)
      · exact hacc t (List.mem_cons_of_mem s ht) h
      · exact hN.1 (h ▸ (List.mem_map.mpr ⟨t, ht, rfl⟩))

theorem dlookup_specByName (l : List SpecSource)
    (hN : (l.map SpecSource.name).Nodup) (k : String) (ss : SpecSource) :
    dlookup (specByName l) k = some ss ↔ ss ∈ l ∧ ss.name = k := by
  rw [specByName_eq_map l hN]
  constructor
  · intro h
    rcases List.mem_map.mp (mem_of_dlookup_eq_some h) with ⟨t, ht, hts⟩
    injection hts with h1 h2
    subst h2
    exact ⟨ht, h1⟩
  · rintro ⟨hmem, hname⟩
    apply dlookup_eq_some_of_mem
    · rw [List.map_map]
      simpa using hN
    · subst hname
      exact List.mem_map.mpr ⟨ss, hmem, rfl⟩

theorem keys_specByName_fold (l : List SpecSource)
    (acc : List (String × SpecSource)) (k : String) :
    k ∈ (l.foldl (fun a s => insertD a s.name s) acc).map Prod.fst
      ↔ k ∈ acc.map Prod.fst ∨ ∃ t ∈ l, t.name = k := by
  induction l generalizing acc with
  | nil => simp
  | cons s rest ih =>
    simp only [List.foldl_cons]
    rw [ih, ← isSome_dlookup_mem, dlookup_insertD]
    by_cases hq : k = s.name
    · simp only [if_pos hq, Option.isSome_some]
      constructor
      · intro _
        exact Or.inr ⟨s, List.mem_cons_self s rest, hq.symm⟩
      · intro _
        simp
    · rw [if_neg hq, isSome_dlookup_mem]
      constructor
      · rintro (h | ⟨t, ht, hname⟩)
        · exact Or.inl h
        · exact Or.inr ⟨t, List.mem_cons_of_mem s ht, hname⟩
      · rintro (h | ⟨t, ht, hname⟩)
        · exact Or.inl h
        · rcases List.mem_cons.mp ht with h2 | h2
          · subst h2
            exact absurd hname.symm hq
          · exact Or.inr ⟨t, h2, hname⟩

theorem dlookup_specByName_none (l : List SpecSource) (k : String) :
    dlookup (specByName l) k = none ↔ ∀ ss ∈ l, ss.name ≠ k := by
  rw [dlookup_eq_none]
  unfold specByName
  rw [keys_specByName_fold]
  simp

theorem validateSA_errors_eq (sources : List SourceData)
    (specSources : List SpecSource) :
    (validateSourceAttributes sources specSources).1
      = (sources.map (fun src =>
          match dlookup (specByName specSources) src.name with
          | none => [PreflightIssue.sourceNotInSpec src.name]
          | some ss => columnIssues src ss)).flatten := by
  unfold validateSourceAttributes
  suffices h : ∀ acc : List PreflightIssue,
      sources.foldl (fun errs src =>
        match dlookup (specByName specSources) src.name with
        | none => errs ++ [.sourceNotInSpec src.name]
        | some ss => errs ++ columnIssues src ss) acc
      = acc ++ (sources.map (fun src =>
          match dlookup (specByName specSources) src.name with
          | none => [PreflightIssue.sourceNotInSpec src.name]
          | some ss => columnIssues src ss)).flatten by
    simpa using h []
  induction sources with
  | nil => intro acc; simp
  | cons src rest ih =>
    intro acc
    simp only [List.foldl_cons, List.map_cons, List.flatten_cons]
    cases hcase : dlookup (specByName specSources) src.name with
    | none => rw [ih]; simp
    | some ss => rw [ih]; simp

theorem columnIssues_ne_nil (src : SourceData) (ss : SpecSource) :
    columnIssues src ss ≠ [] ↔
      ∃ p ∈ ss.attributes, ∀ c ∈ src.columns, lowerStr c ≠ lowerStr p.2 := by
  unfold columnIssues
  rw [Ne, List.filterMap_eq_nil_iff]
  push_neg
  constructor
  · rintro ⟨p, hp, hne⟩
    refine ⟨p, hp, ?_⟩
    by_cases hcond : (src.columns.any (fun c => decide (c = p.2)) : Prop)
        ∨ (src.columns.any (fun c => decide (lowerStr c = lowerStr p.2)) : Prop)
    · rw [if_pos hcond] at hne
      exact absurd rfl hne
    · intro c hc he
      apply hcond
      right
      rw [List.any_eq_true]
      exact ⟨c, hc, by simp [he]⟩
  · rintro ⟨p, hp, hall⟩
    refine ⟨p, hp, ?_⟩
    have hcond : ¬ ((src.columns.any (fun c => decide (c = p.2)) : Prop)
        ∨ (src.columns.any (fun c => decide (lowerStr c = lowerStr p.2)) : Prop)) := by
      rintro (h | h)
      · rw [List.any_eq_true] at h
        rcases h with ⟨c, hc, he⟩
        exact hall c hc (by simp at he; rw [he])
      · rw [List.any_eq_true] at h
        rcases h with ⟨c, hc, he⟩
        exact hall c hc (by simpa using he)
    rw [if_neg hcond]
    simp

/-- C7: the preflight raises iff some provided source is undeclared or some
spec-mapped column is absent (up to case) from that source's columns; a
declared but unprovided source yields a warning only; and `reconcile` raises
the mismatch error before touching the engine exactly when the preflight
errors are nonempty. -/
theorem preflight_source_check (sources : List SourceData)
    (specSources : List SpecSource)
    (hN : (specSources.map SpecSource.name).Nodup) :
    ((validateSourceAttributes sources specSources).1 ≠ [] ↔
      ∃ src ∈ sources,
        (∀ ss ∈ specSources, ss.name ≠ src.name)
        ∨ ∃ ss ∈ specSources, ss.name = src.name
            ∧ ∃ p ∈ ss.attributes, ∀ c ∈ src.columns, lowerStr c ≠ lowerStr p.2)
    ∧ (∀ name, name ∈ (validateSourceAttributes sources specSources).2 ↔
        ((∃ ss ∈ specSources, ss.name = name)
          ∧ ∀ src ∈ sources, src.name ≠ name))
    ∧ (∀ (api : NativeApi) (spec : SpecData) (previous : Option ResultState)
        (feedback : List FeedbackLabel) (lr : ℚ) (supply : ℕ → String)
        (now : String),
        spec.sources = specSources →
        api.validateSpec spec.raw = [] →
        ((validateSourceAttributes sources specSources).1 ≠ [] →
          reconcile api sources spec previous feedback lr supply now
            = .error (.sourceSpecMismatch
                (validateSourceAttributes sources specSources).1))
        ∧ ((validateSourceAttributes sources specSources).1 = [] →
          ∃ res warns, reconcile api sources spec previous feedback lr supply now
            = .ok (res, warns))) := by
  refine ⟨?_, ?_, ?_⟩
  · rw [validateSA_errors_eq]
    constructor
    · intro h
      by_contra hcon
      push_neg at hcon
      apply h
      rw [List.flatten_eq_nil_iff]
      intro x hx
      rcases List.mem_map.mp hx with ⟨src, hsrc, hxe⟩
      subst hxe
      cases hcase : dlookup (specByName specSources) src.name with
      | none =>
        exfalso
        rcases (hcon src hsrc).1 with ⟨ss0, hss0, hname0⟩
        exact absurd hname0
          (((dlookup_specByName_none specSources src.name).mp hcase) ss0 hss0)
      | some ss =>
        by_cases hc : columnIssues src ss = []
        · exact hc
        · exfalso
          rcases (columnIssues_ne_nil src ss).mp hc with ⟨p, hp, hall⟩
          rcases (dlookup_specByName specSources hN src.name ss).mp hcase
            with ⟨hssmem, hssname⟩
          rcases (hcon src hsrc).2 ss hssmem hssname p hp with ⟨c, hcc, he⟩
          exact hall c hcc he
    · rintro ⟨src, hsrc, hcases⟩ hflat
      rw [List.flatten_eq_nil_iff] at hflat
      have hthis := hflat _ (List.mem_map.mpr ⟨src, hsrc, rfl⟩)
      rcases hcases with hnone | ⟨ss, hssmem, hssname, hcol⟩
      · have : dlookup (specByName specSources) src.name = none :=
          (dlookup_specByName_none specSources src.name).mpr
            (fun ss hss => hnone ss hss)
        rw [this] at hthis
        cases hthis
      · have : dlookup (specByName specSources) src.name = some ss :=
          (dlookup_specByName specSources hN src.name ss).mpr ⟨hssmem, hssname⟩
        rw [this] at hthis
        exact (columnIssues_ne_nil src ss).mpr hcol hthis
  · intro name
    unfold validateSourceAttributes
    rw [List.mem_filterMap]
    constructor
    · rintro ⟨n0, hn0, hif⟩
      by_cases hany : (sources.any (fun s => decide (s.name = n0)) : Prop)
      · rw [if_pos hany] at hif
        cases hif
      · rw [if_neg hany] at hif
        injection hif with hif
        subst hif
        rw [specByName_eq_map specSources hN, List.map_map] at hn0
        rcases List.mem_map.mp hn0 with ⟨ss, hss, hssname⟩
        refine ⟨⟨ss, hss, hssname⟩, ?_⟩
        intro src hsrc he
        apply hany
        rw [List.any_eq_true]
        exact ⟨src, hsrc, by simp [he]⟩
    · rintro ⟨⟨ss, hss, hssname⟩, hnone⟩
      refine ⟨name, ?_, ?_⟩
      · rw [specByName_eq_map specSources hN, List.map_map]
        exact List.mem_map.mpr ⟨ss, hss, hssname⟩
      · rw [if_neg]
        intro hany
        rw [List.any_eq_true] at hany
        rcases hany with ⟨src, hsrc, he⟩
        exact hnone src hsrc (by simpa using he)
  · intro api spec previous feedback lr supply now hspec hv
    constructor
    · intro herr
      unfold reconcile
      rw [hspec, hv]
      simp only [ne_eq, not_true_eq_false, if_neg, reduceIte]
      rw [if_pos herr]
    · intro hok
      unfold reconcile
      rw [hspec, hv]
      simp only [ne_eq, not_true_eq_false, reduceIte]
      rw [if_neg (by rw [hok]; exact fun h => h rfl)]
      cases previous with
      | none => exact ⟨_, _, rfl⟩
      | some p => exact ⟨_, _, rfl⟩

/-- A source whose schema lacks the spec-mapped column `email_addr`. -/
def srcBad : SourceData := ⟨"s", none, ["rid"], []⟩

/-- C7 witness: a source missing a spec-mapped column makes the preflight
error list nonempty (spec names are distinct). -/
theorem preflight_source_check_witness :
    (validateSourceAttributes [srcBad] specSourcesC2).1 ≠ [] :=
  (preflight_source_check [srcBad] specSourcesC2 (by decide)).1.mpr (by decide)

/-! ## Theorems: spec-change warning (incremental runs) -/

/-- C6: with a previous result whose stored spec hash differs from the
current spec's hash, `reconcile` emits the spec-changed warning and still
returns a result — it does not abort. -/
theorem spec_change_warns_and_proceeds (api : NativeApi)
    (sources : List SourceData) (spec : SpecData) (p : ResultState)
    (feedback : List FeedbackLabel) (lr : ℚ) (supply : ℕ → String)
    (now : String) (h : String)
    (hv : api.validateSpec spec.raw = [])
    (hpf : (validateSourceAttributes sources spec.sources).1 = [])
    (hh : p.spec_hash = some h)
    (hne : h ≠ api.specHash spec.raw) :
    ∃ res warns,
      reconcile api sources spec (some p) feedback lr supply now
        = .ok (res, warns)
      ∧ RunWarning.specChanged ∈ warns := by
  unfold reconcile
  rw [hv]
  simp only [ne_eq, not_true_eq_false, reduceIte]
  rw [if_neg (by rw [hpf]; exact fun hcon => hcon rfl)]
  refine ⟨_, _, rfl, ?_⟩
  rw [hh]
  simp [hne]

/-! ## The modelled native engine

The Rust engine behind `kanoniv._native` is not part of the Python sources;
the instance below is used to instantiate the `reconcile` control-flow
theorems at concrete inputs. -/

/-- Modelled from the spec: `kanoniv._native.reconcile_local` for a run in
which no two records share a blocking key value — missing from src/ (it is
Rust code reached through PyO3).  Per spec §4.C ("Missing or empty values
yield no key") and §8 invariant 3 ("singleton clusters are always emitted
for records that share no blocking key with any other"), every record forms
a singleton cluster, in record order, each with one golden record whose
stable id is derived from the member's `(source, external_id)` (spec §4.G). -/
def engineSingleton (entities : List Entity) : EngineOutput :=
  { clusters := entities.map (fun e => [e.id]),
    golden_records := entities.map (fun e =>
      [("kanoniv_id", "kanoniv-v1|" ++ e.source_name ++ "|" ++ e.external_id)]),
    decisions := .arr [],
    telemetry := .obj [],
    trained_fs_params := .null }

/-- Modelled from the spec: the native API for runs without shared blocking
keys; the spec hash is a stable digest of the raw spec text (§4.A), modelled
as an injective function, and validation accepts. -/
def apiModel : NativeApi :=
  { specHash := fun s => s,
    validateSpec := fun _ => [],
    reconcileLocal := fun _ ents => engineSingleton ents,
    reconcileWithFeedback := fun _ ents _ _ _ => engineSingleton ents,
    reconcileIncremental := fun _ newEnts existing clusters _ =>
      { engineSingleton (existing ++ newEnts) with
          clusters := clusters ++ newEnts.map (fun e => [e.id]) } }

/-- A spec declaring one source `s` with no attribute mappings. -/
def specC1 : SpecData := ⟨"person", [⟨"s", []⟩], "rawC1"⟩

/-- A source with a single row carrying no columns at all. -/
def srcC1 : SourceData := ⟨"s", none, [], [[]]⟩

/-- C6 witness: concrete incremental run with a stale stored hash returns a
result carrying the spec-changed warning. -/
theorem spec_change_warns_witness :
    ∃ res warns,
      reconcile apiModel [] specC1
          (some { emptyResult with spec_hash := some "oldHash" }) [] 0
          (fun _ => "u") "t"
        = .ok (res, warns)
      ∧ RunWarning.specChanged ∈ warns :=
  spec_change_warns_and_proceeds apiModel [] specC1
    { emptyResult with spec_hash := some "oldHash" } [] 0 (fun _ => "u") "t"
    "oldHash" rfl rfl rfl (by decide)

/-! ## Theorems: determinism (C1) -/

/-- One uuid stream: `"a"`, `"aa"`, `"aaa"`, ... -/
def supplyA : ℕ → String := fun n => String.mk (List.replicate (n + 1) 'a')

/-- A second, disjoint uuid stream: `"b"`, `"bb"`, ... -/
def supplyB : ℕ → String := fun n => String.mk (List.replicate (n + 1) 'b')

/-- C1 counterexample: two runs of `reconcile` on the same
`(spec, records, feedback, seed)` but with the different fresh-uuid streams
of two executions return different clusters — the cluster lists contain the
run-fresh record uuids, so they are not byte-identical across runs. -/
theorem reconcile_runs_differ :
    (reconcile apiModel [srcC1] specC1 none [] 0 supplyA "t").toOption.map
        (fun r => r.1.clusters)
      ≠ (reconcile apiModel [srcC1] specC1 none [] 0 supplyB "t").toOption.map
        (fun r => r.1.clusters) := by decide

/-- The supply-independent content of an ingested entity: everything except
the run-fresh uuid `id`. -/
def entityContent (e : Entity) :
    String × String × String × List (String × String) × String :=
  (e.source_name, e.external_id, e.entity_type, e.data, e.last_updated)

theorem toEntitiesAux_content (name : String) (pk : Option String)
    (et now : String) (supply1 supply2 : ℕ → String)
    (rows : List (List (String × String))) (n1 n2 : ℕ)
    (hrows : ∀ row ∈ rows,
      (match pk with
        | some k => (dlookup row k).getD ""
        | none => "") ≠ "") :
    (toEntitiesAux name pk et now supply1 rows n1).1.map entityContent
      = (toEntitiesAux name pk et now supply2 rows n2).1.map entityContent := by
  induction rows generalizing n1 n2 with
  | nil => rfl
  | cons row rest ih =>
    have hext := hrows row (List.mem_cons_self row rest)
    simp only [toEntitiesAux, if_neg hext, List.map_cons]
    rw [ih (n1 + 1) (n2 + 1) (fun r hr => hrows r (List.mem_cons_of_mem row hr))]
    rfl

/-- C1 (amended): `reconcile` is a pure function of
`(spec, records, feedback, uuid stream, timestamp)`, and the ingested record
content — source name, external id, entity type, remapped data, timestamp —
is independent of the uuid stream whenever every row carries a nonempty
primary-key value; only the run-fresh record uuids (and whatever is derived
from them, such as the uuid lists inside clusters) differ between runs. -/
theorem ingest_content_supply_independent (sources : List SourceData)
    (attrMaps : List (String × List (String × String)))
    (entityType now : String) (supply1 supply2 : ℕ → String) (n1 n2 : ℕ)
    (hpk : ∀ src ∈ sources, ∀ row ∈ src.rows,
      (match src.primaryKey with
        | some k => (dlookup row k).getD ""
        | none => "") ≠ "") :
    (ingestAll sources attrMaps entityType now supply1 n1).1.map entityContent
      = (ingestAll sources attrMaps entityType now supply2 n2).1.map entityContent := by
  induction sources generalizing n1 n2 with
  | nil => rfl
  | cons src rest ih =>
    simp only [ingestAll, List.map_append]
    have hsrc : (ingestSource src attrMaps entityType now supply1 n1).1.map entityContent
        = (ingestSource src attrMaps entityType now supply2 n2).1.map entityContent := by
      unfold ingestSource toEntities
      have hte := toEntitiesAux_content src.name src.primaryKey entityType now
        supply1 supply2 src.rows n1 n2
        (fun row hr => hpk src (List.mem_cons_self src rest) row hr)
      by_cases hrm : (dlookup attrMaps src.name).getD [] = []
      · simp only [hrm, if_pos rfl]
        exact hte
      · simp only [if_neg hrm]
        rw [List.map_map, List.map_map]
        have hcomp : ∀ (l1 l2 : List Entity),
            l1.map entityContent = l2.map entityContent →
            l1.map (entityContent ∘ (fun e =>
                { e with data := remapRow ((dlookup attrMaps src.name).getD []) e.data }))
              = l2.map (entityContent ∘ (fun e =>
                { e with data := remapRow ((dlookup attrMaps src.name).getD []) e.data })) := by
          intro l1 l2 h
          have : ∀ l : List Entity,
              l.map (entityContent ∘ (fun e =>
                { e with data := remapRow ((dlookup attrMaps src.name).getD []) e.data }))
              = (l.map entityContent).map (fun c =>
                  (c.1, c.2.1, c.2.2.1,
                    remapRow ((dlookup attrMaps src.name).getD []) c.2.2.2.1,
                    c.2.2.2.2)) := by
            intro l
            rw [List.map_map]
            apply List.map_congr_left
            intro e _
            rfl
          rw [this l1, this l2, h]
        exact hcomp _ _ hte
    rw [hsrc, ih _ _ (fun s hs row hr => hpk s (List.mem_cons_of_mem src hs) row hr)]

/-- C1 witness: concrete ingest with a primary-keyed source has identical
content under the two uuid streams. -/
theorem ingest_content_supply_independent_witness :
    (ingestAll [srcC2] (buildAttrMaps specSourcesC2) "person" "t" supplyA 0).1.map
        entityContent
      = (ingestAll [srcC2] (buildAttrMaps specSourcesC2) "person" "t" supplyB 7).1.map
        entityContent :=
  ingest_content_supply_independent [srcC2] (buildAttrMaps specSourcesC2)
    "person" "t" supplyA supplyB 0 7 (by decide)

/-! ## Theorems: fresh external ids (C10) -/

theorem toEntitiesAux_extIds_none (name et now : String) (supply : ℕ → String)
    (rows : List (List (String × String))) (n : ℕ) :
    (toEntitiesAux name none et now supply rows n).1.map (fun e => e.external_id)
      = (List.range rows.length).map (fun k => supply (n + 2 * k)) := by
  induction rows generalizing n with
  | nil => rfl
  | cons row rest ih =>
    have hstep : (toEntitiesAux name none et now supply (row :: rest) n).1.map
          (fun e => e.external_id)
        = supply n :: (toEntitiesAux name none et now supply rest (n + 2)).1.map
          (fun e => e.external_id) := rfl
    rw [hstep, ih (n + 2), List.length_cons, List.range_succ_eq_map,
      List.map_cons, List.map_map]
    have h0 : n + 2 * 0 = n := by omega
    rw [h0]
    congr 1
    apply List.map_congr_left
    intro k _
    simp only [Function.comp_apply]
    congr 1
    omega

/-- C10: every entity from `to_entities` has a nonempty external id; with no
primary key, the fresh-uuid external ids are pairwise distinct within the
run, and disjoint from the external ids of any run whose uuid stream is
disjoint — so they differ on every run. -/
theorem to_entities_fresh_external_ids (name et now : String)
    (supply supply2 : ℕ → String) (pk : Option String)
    (rows rows2 : List (List (String × String))) (n n2 : ℕ)
    (hne : ∀ i, supply i ≠ "")
    (hinj : ∀ i j, supply i = supply j → i = j)
    (hdisj : ∀ i j, supply i ≠ supply2 j) :
    (∀ e ∈ (toEntitiesAux name pk et now supply rows n).1, e.external_id ≠ "")
    ∧ ((toEntitiesAux name none et now supply rows n).1.map
        (fun e => e.external_id)).Nodup
    ∧ (∀ e ∈ (toEntitiesAux name none et now supply rows n).1,
        ∀ e2 ∈ (toEntitiesAux name none et now supply2 rows2 n2).1,
        e.external_id ≠ e2.external_id) := by
  refine ⟨?_, ?_, ?_⟩
  · induction rows generalizing n with
    | nil => intro e he; cases he
    | cons row rest ih =>
      intro e he
      cases pk with
      | none =>
        have hstep : (toEntitiesAux name none et now supply (row :: rest) n).1
            = { id := supply (n + 1), tenant_id := tenantDefault,
                external_id := supply n, entity_type := et, data := row,
                source_name := name, valid_from := none, valid_to := none,
                last_updated := now }
              :: (toEntitiesAux name none et now supply rest (n + 2)).1 := rfl
        rw [hstep] at he
        rcases List.mem_cons.mp he with h | h
        · subst h; exact hne n
        · exact ih (n + 2) e h
      | some k =>
        by_cases hext : (dlookup row k).getD "" = ""
        · have hstep : (toEntitiesAux name (some k) et now supply (row :: rest) n).1
              = { id := supply (n + 1), tenant_id := tenantDefault,
                  external_id := supply n, entity_type := et, data := row,
                  source_name := name, valid_from := none, valid_to := none,
                  last_updated := now }
                :: (toEntitiesAux name (some k) et now supply rest (n + 2)).1 := by
            simp [toEntitiesAux, hext]
          rw [hstep] at he
          rcases List.mem_cons.mp he with h | h
          · subst h; exact hne n
          · exact ih (n + 2) e h
        · have hstep : (toEntitiesAux name (some k) et now supply (row :: rest) n).1
              = { id := supply n, tenant_id := tenantDefault,
                  external_id := (dlookup row k).getD "", entity_type := et,
                  data := row, source_name := name, valid_from := none,
                  valid_to := none, last_updated := now }
                :: (toEntitiesAux name (some k) et now supply rest (n + 1)).1 := by
            simp [toEntitiesAux, hext]
          rw [hstep] at he
          rcases List.mem_cons.mp he with h | h
          · subst h; exact hext
          · exact ih (n + 1) e h
  · rw [toEntitiesAux_extIds_none]
    apply List.Nodup.map
    · intro i j h
      have := hinj (n + 2 * i) (n + 2 * j) h
      omega
    · exact List.nodup_range _
  · intro e he e2 he2
    have h1 : e.external_id ∈ (toEntitiesAux name none et now supply rows n).1.map
        (fun e => e.external_id) := List.mem_map.mpr ⟨e, he, rfl⟩
    have h2 : e2.external_id ∈ (toEntitiesAux name none et now supply2 rows2 n2).1.map
        (fun e => e.external_id) := List.mem_map.mpr ⟨e2, he2, rfl⟩
    rw [toEntitiesAux_extIds_none] at h1 h2
    rcases List.mem_map.mp h1 with ⟨i, _, hi⟩
    rcases List.mem_map.mp h2 with ⟨j, _, hj⟩
    rw [← hi, ← hj]
    exact hdisj _ _

theorem supplyA_ne_empty (i : ℕ) : supplyA i ≠ "" := by
  intro h
  have hd := congrArg String.data h
  simp [supplyA, List.replicate] at hd

theorem supplyA_inj (i j : ℕ) (h : supplyA i = supplyA j) : i = j := by
  have hd := congrArg String.length h
  simp [supplyA, String.length] at hd
  omega

theorem supplyA_ne_supplyB (i j : ℕ) : supplyA i ≠ supplyB j := by
  intro h
  have hd := congrArg String.data h
  simp [supplyA, supplyB, List.replicate] at hd

/-- C10 witness: two primary-key-less rows at concrete uuid streams — all
three conclusions at a concrete input. -/
theorem to_entities_fresh_external_ids_witness :
    (∀ e ∈ (toEntitiesAux "s" none "person" "t" supplyA [[], []] 0).1,
      e.external_id ≠ "")
    ∧ ((toEntitiesAux "s" none "person" "t" supplyA [[], []] 0).1.map
        (fun e => e.external_id)).Nodup
    ∧ (∀ e ∈ (toEntitiesAux "s" none "person" "t" supplyA [[], []] 0).1,
        ∀ e2 ∈ (toEntitiesAux "s" none "person" "t" supplyB [[], []] 3).1,
        e.external_id ≠ e2.external_id) :=
  to_entities_fresh_external_ids "s" "person" "t" supplyA supplyB none
    [[], []] [[], []] 0 3 supplyA_ne_empty supplyA_inj supplyA_ne_supplyB

/-! ## Theorems: changelog classification (C3) -/

theorem mem_prevKidsOf (pl : List (Key × String)) (members : Finset Key)
    (k : String) :
    k ∈ prevKidsOf pl members ↔ ∃ m ∈ members, dlookup pl m = some k := by
  unfold prevKidsOf
  simp only [Finset.mem_biUnion, Finset.mem_filter, Option.mem_toFinset,
    Option.mem_def]
  constructor
  · rintro ⟨m, ⟨hm, _⟩, hk⟩
    exact ⟨m, hm, hk⟩
  · rintro ⟨m, hm, hk⟩
    exact ⟨m, ⟨hm, by simp [hk]⟩, hk⟩

theorem prevKidsOf_card_lt_iff (pl : List (Key × String)) (members : Finset Key) :
    1 < (prevKidsOf pl members).card ↔
      ∃ m1 ∈ members, ∃ m2 ∈ members, ∃ k1 k2,
        dlookup pl m1 = some k1 ∧ dlookup pl m2 = some k2 ∧ k1 ≠ k2 := by
  rw [Finset.one_lt_card]
  constructor
  · rintro ⟨k1, hk1, k2, hk2, hne⟩
    rcases (mem_prevKidsOf pl members k1).mp hk1 with ⟨m1, hm1, h1⟩
    rcases (mem_prevKidsOf pl members k2).mp hk2 with ⟨m2, hm2, h2⟩
    exact ⟨m1, hm1, m2, hm2, k1, k2, h1, h2, hne⟩
  · rintro ⟨m1, hm1, m2, hm2, k1, k2, h1, h2, hne⟩
    exact ⟨k1, (mem_prevKidsOf pl members k1).mpr ⟨m1, hm1, h1⟩,
      k2, (mem_prevKidsOf pl members k2).mpr ⟨m2, hm2, h2⟩, hne⟩

theorem prevKidsOf_nonempty_iff (pl : List (Key × String)) (members : Finset Key) :
    (prevKidsOf pl members).Nonempty ↔
      ∃ m ∈ members, (dlookup pl m).isSome := by
  constructor
  · rintro ⟨k, hk⟩
    rcases (mem_prevKidsOf pl members k).mp hk with ⟨m, hm, h⟩
    exact ⟨m, hm, by simp [h]⟩
  · rintro ⟨m, hm, h⟩
    rcases Option.isSome_iff_exists.mp h with ⟨k, hk⟩
    exact ⟨k, (mem_prevKidsOf pl members k).mpr ⟨m, hm, hk⟩⟩

theorem existing_empty_iff (pl : List (Key × String)) (members : Finset Key) :
    members.filter (fun m => (dlookup pl m).isSome) = ∅ ↔
      ∀ m ∈ members, dlookup pl m = none := by
  rw [Finset.filter_eq_empty_iff]
  constructor
  · intro h m hm
    have := h hm
    simpa [Option.isSome_iff_ne_none] using this
  · intro h m hm
    simp [h m hm]

theorem classifyCurrent_created_iff (pl : List (Key × String))
    (members : Finset Key) :
    classifyCurrent pl members = some .created ↔
      ∀ m ∈ members, dlookup pl m = none := by
  unfold classifyCurrent
  by_cases hE : members.filter (fun m => (dlookup pl m).isSome) = ∅
  · rw [if_pos hE]
    simp only [Option.some.injEq, true_iff]
    exact (existing_empty_iff pl members).mp hE
  · rw [if_neg hE]
    constructor
    · intro h
      by_cases h2 : 1 < (prevKidsOf pl members).card
      · rw [if_pos h2] at h; cases h
      · rw [if_neg h2] at h
        by_cases h3 : members.filter (fun m => dlookup pl m = none) ≠ ∅
        · rw [if_pos h3] at h; cases h
        · rw [if_neg h3] at h; cases h
    · intro h
      exact absurd ((existing_empty_iff pl members).mpr h) hE

theorem classifyCurrent_merged_iff (pl : List (Key × String))
    (members : Finset Key) :
    classifyCurrent pl members = some .merged ↔
      ∃ m1 ∈ members, ∃ m2 ∈ members, ∃ k1 k2,
        dlookup pl m1 = some k1 ∧ dlookup pl m2 = some k2 ∧ k1 ≠ k2 := by
  rw [← prevKidsOf_card_lt_iff]
  unfold classifyCurrent
  by_cases hE : members.filter (fun m => (dlookup pl m).isSome) = ∅
  · rw [if_pos hE]
    simp only [Option.some.injEq]
    constructor
    · intro h; cases h
    · intro h
      exfalso
      rcases Finset.one_lt_card.mp h with ⟨k1, hk1, -⟩
      rcases (mem_prevKidsOf pl members k1).mp hk1 with ⟨m, hm, hlk⟩
      rw [(existing_empty_iff pl members).mp hE m hm] at hlk
      cases hlk
  · rw [if_neg hE]
    by_cases h2 : 1 < (prevKidsOf pl members).card
    · rw [if_pos h2]
      simp [h2]
    · rw [if_neg h2]
      by_cases h3 : members.filter (fun m => dlookup pl m = none) ≠ ∅
      · rw [if_pos h3]
        simp [h2]
      · rw [if_neg h3]
        simp [h2]

theorem classifyCurrent_grown_iff (pl : List (Key × String))
    (members : Finset Key) :
    classifyCurrent pl members = some .grown ↔
      ((∃ k, (∃ m ∈ members, dlookup pl m = some k)
        ∧ ∀ m ∈ members, ∀ k2, dlookup pl m = some k2 → k2 = k)
      ∧ ∃ m ∈ members, dlookup pl m = none) := by
  have hcard : ((prevKidsOf pl members).card = 1 ↔
      ∃ k, (∃ m ∈ members, dlookup pl m = some k)
        ∧ ∀ m ∈ members, ∀ k2, dlookup pl m = some k2 → k2 = k) := by
    rw [Finset.card_eq_one]
    constructor
    · rintro ⟨k, hk⟩
      have hmem : k ∈ prevKidsOf pl members := by
        rw [hk]; exact Finset.mem_singleton_self k
      rcases (mem_prevKidsOf pl members k).mp hmem with ⟨m, hm, hlk⟩
      refine ⟨k, ⟨m, hm, hlk⟩, ?_⟩
      intro m2 hm2 k2 hlk2
      have : k2 ∈ prevKidsOf pl members :=
        (mem_prevKidsOf pl members k2).mpr ⟨m2, hm2, hlk2⟩
      rw [hk] at this
      exact Finset.mem_singleton.mp this
    · rintro ⟨k, ⟨m, hm, hlk⟩, huniq⟩
      refine ⟨k, ?_⟩
      ext k2
      simp only [Finset.mem_singleton, mem_prevKidsOf]
      constructor
      · rintro ⟨m2, hm2, hlk2⟩
        exact huniq m2 hm2 k2 hlk2
      · intro h
        subst h
        exact ⟨m, hm, hlk⟩
  rw [← hcard]
  unfold classifyCurrent
  by_cases hE : members.filter (fun m => (dlookup pl m).isSome) = ∅
  · rw [if_pos hE]
    simp only [Option.some.injEq]
    constructor
    · intro h; cases h
    · rintro ⟨hone, -⟩
      exfalso
      have : (prevKidsOf pl members).Nonempty :=
        Finset.card_pos.mp (by omega)
      rcases (prevKidsOf_nonempty_iff pl members).mp this with ⟨m, hm, hsome⟩
      rw [(existing_empty_iff pl members).mp hE m hm] at hsome
      cases hsome
  · rw [if_neg hE]
    have hpos : 0 < (prevKidsOf pl members).card := by
      rcases Finset.nonempty_iff_ne_empty.mpr hE with ⟨m, hm⟩
      rcases Finset.mem_filter.mp hm with ⟨hm2, hsome⟩
      exact Finset.card_pos.mpr
        ((prevKidsOf_nonempty_iff pl members).mpr ⟨m, hm2, hsome⟩)
    by_cases h2 : 1 < (prevKidsOf pl members).card
    · rw [if_pos h2]
      simp only [Option.some.injEq]
      constructor
      · intro h; cases h
      · rintro ⟨hone, -⟩
        omega
    · rw [if_neg h2]
      have hone : (prevKidsOf pl members).card = 1 := by omega
      by_cases h3 : members.filter (fun m => dlookup pl m = none) ≠ ∅
      · rw [if_pos h3]
        simp only [Option.some.injEq, true_iff]
        refine ⟨hone, ?_⟩
        rcases Finset.nonempty_iff_ne_empty.mpr h3 with ⟨m, hm⟩
        rcases Finset.mem_filter.mp hm with ⟨hm2, hnone⟩
        exact ⟨m, hm2, hnone⟩
      · rw [if_neg h3]
        constructor
        · intro h; cases h
        · rintro ⟨-, m, hm, hnone⟩
          exfalso
          apply h3
          apply Finset.nonempty_iff_ne_empty.mp
          exact ⟨m, Finset.mem_filter.mpr ⟨hm, hnone⟩⟩

theorem classifyCurrent_types (pl : List (Key × String)) (members : Finset Key)
    (ct : ChangeType) (h : classifyCurrent pl members = some ct) :
    ct = .created ∨ ct = .merged ∨ ct = .grown := by
  unfold classifyCurrent at h
  by_cases hE : members.filter (fun m => (dlookup pl m).isSome) = ∅
  · rw [if_pos hE] at h
    injection h with h
    exact Or.inl h.symm
  · rw [if_neg hE] at h
    by_cases h2 : 1 < (prevKidsOf pl members).card
    · rw [if_pos h2] at h
      injection h with h
      exact Or.inr (Or.inl h.symm)
    · rw [if_neg h2] at h
      by_cases h3 : members.filter (fun m => dlookup pl m = none) ≠ ∅
      · rw [if_pos h3] at h
        injection h with h
        exact Or.inr (Or.inr h.symm)
      · rw [if_neg h3] at h
        cases h

theorem classifyPrev_types (cl : List (Key × String)) (seen : Finset String)
    (kid : String) (members : Finset Key) (ct : ChangeType)
    (h : classifyPrev cl seen kid members = some ct) :
    ct = .removed ∨ ct = .split := by
  unfold classifyPrev at h
  by_cases h1 : kid ∉ seen
  · rw [if_pos h1] at h
    injection h with h
    exact Or.inl h.symm
  · rw [if_neg h1] at h
    by_cases h2 : 1 < ((members.filter (fun m => (dlookup cl m).isSome)).biUnion
        (fun m => (dlookup cl m).toFinset)).card
    · rw [if_pos h2] at h
      injection h with h
      exact Or.inr h.symm
    · rw [if_neg h2] at h
      cases h

theorem mem_seenKids (pl : List (Key × String))
    (ents : List (String × Finset Key)) (k : String) :
    k ∈ seenKids pl ents ↔ ∃ p ∈ ents, k ∈ prevKidsOf pl p.2 := by
  unfold seenKids
  suffices h : ∀ acc : Finset String,
      k ∈ ents.foldl (fun acc p => acc ∪ prevKidsOf pl p.2) acc ↔
        k ∈ acc ∨ ∃ p ∈ ents, k ∈ prevKidsOf pl p.2 by
    rw [h ∅]
    simp
  induction ents with
  | nil => intro acc; simp
  | cons p rest ih =>
    intro acc
    simp only [List.foldl_cons]
    rw [ih (acc ∪ prevKidsOf pl p.2)]
    simp only [Finset.mem_union, List.mem_cons]
    constructor
    · rintro ((h | h) | ⟨q, hq, hk⟩)
      · exact Or.inl h
      · exact Or.inr ⟨p, Or.inl rfl, h⟩
      · exact Or.inr ⟨q, Or.inr hq, hk⟩
    · rintro (h | ⟨q, (h2 | h2), hk⟩)
      · exact Or.inl (Or.inl h)
      · subst h2; exact Or.inl (Or.inr hk)
      · exact Or.inr ⟨q, h2, hk⟩

theorem buildSourceToKanoniv_keys_nodup (r : ResultState) :
    ((buildSourceToKanoniv r).map Prod.fst).Nodup := by
  unfold buildSourceToKanoniv
  suffices h : ∀ (l : List (String × Key)) (acc : List (Key × String)),
      (acc.map Prod.fst).Nodup →
      ((l.foldl (fun acc p =>
        let kid := (dlookup (buildUuidToKid r.clusters r.golden_records) p.1).getD ""
        if kid ≠ "" then insertD acc p.2 kid else acc) acc).map Prod.fst).Nodup by
    exact h r.entity_map [] (by simp)
  intro l
  induction l with
  | nil => intro acc hacc; simpa using hacc
  | cons p rest ih =>
    intro acc hacc
    simp only [List.foldl_cons]
    by_cases hkid : (dlookup (buildUuidToKid r.clusters r.golden_records) p.1).getD "" ≠ ""
    · simp only [if_pos hkid]
      exact ih _ (insertD_keys_nodup acc p.2 _ hacc)
    · simp only [if_neg hkid]
      exact ih _ hacc

theorem binding_unique {α β : Type} [DecidableEq α]
    {l : List (α × β)} (hN : (l.map Prod.fst).Nodup) {k : α} {a b : β}
    (ha : (k, a) ∈ l) (hb : (k, b) ∈ l) : a = b := by
  have h1 := dlookup_eq_some_of_mem l hN ha
  have h2 := dlookup_eq_some_of_mem l hN hb
  rw [h1] at h2
  exact Option.some_injective β h2

theorem mem_groupSet_lookup (cl : List (Key × String))
    (hN : (cl.map Prod.fst).Nodup) (kid : String) (m : Key) :
    m ∈ groupSet cl kid ↔ dlookup cl m = some kid := by
  rw [mem_groupSet]
  constructor
  · intro h
    exact dlookup_eq_some_of_mem cl hN h
  · intro h
    exact mem_of_dlookup_eq_some h

theorem seen_iff (pl cl : List (Key × String))
    (hNcl : (cl.map Prod.fst).Nodup) (kid : String) :
    kid ∈ seenKids pl (groupPairs cl) ↔
      ∃ m k2, dlookup cl m = some k2 ∧ dlookup pl m = some kid := by
  rw [mem_seenKids]
  constructor
  · rintro ⟨p, hp, hk⟩
    have hp2 : (p.1, p.2) ∈ groupPairs cl := by simpa using hp
    rcases (mem_groupPairs cl p.1 p.2).mp hp2 with ⟨hset, -⟩
    rcases (mem_prevKidsOf pl p.2 kid).mp hk with ⟨m, hm, hpl⟩
    rw [hset] at hm
    exact ⟨m, p.1, (mem_groupSet_lookup cl hNcl p.1 m).mp hm, hpl⟩
  · rintro ⟨m, k2, hcl, hpl⟩
    have hmem : m ∈ groupSet cl k2 := (mem_groupSet cl k2 m).mpr
      (mem_of_dlookup_eq_some hcl)
    have hne : groupSet cl k2 ≠ ∅ := by
      intro hcon
      rw [hcon] at hmem
      exact Finset.not_mem_empty m hmem
    refine ⟨(k2, groupSet cl k2), (mem_groupPairs cl k2 _).mpr ⟨rfl, hne⟩, ?_⟩
    exact (mem_prevKidsOf pl (groupSet cl k2) kid).mpr ⟨m, hmem, hpl⟩

theorem classifyPrev_removed_iff (cl : List (Key × String))
    (seen : Finset String) (kid : String) (members : Finset Key) :
    classifyPrev cl seen kid members = some .removed ↔ kid ∉ seen := by
  unfold classifyPrev
  by_cases h1 : kid ∉ seen
  · rw [if_pos h1]
    simp [h1]
  · rw [if_neg h1]
    by_cases h2 : 1 < ((members.filter (fun m => (dlookup cl m).isSome)).biUnion
        (fun m => (dlookup cl m).toFinset)).card
    · rw [if_pos h2]
      simp [h1]
    · rw [if_neg h2]
      simp [h1]

theorem classifyPrev_split_iff (cl : List (Key × String))
    (seen : Finset String) (kid : String) (members : Finset Key) :
    classifyPrev cl seen kid members = some .split ↔
      kid ∈ seen ∧ 1 < (prevKidsOf cl members).card := by
  unfold classifyPrev
  have hsame : (members.filter (fun m => (dlookup cl m).isSome)).biUnion
      (fun m => (dlookup cl m).toFinset) = prevKidsOf cl members := rfl
  by_cases h1 : kid ∉ seen
  · rw [if_pos h1]
    simp only [Option.some.injEq]
    constructor
    · intro h; cases h
    · rintro ⟨h, -⟩
      exact absurd h h1
  · rw [if_neg h1, hsame]
    by_cases h2 : 1 < (prevKidsOf cl members).card
    · rw [if_pos h2]
      simp only [Option.some.injEq, true_iff]
      exact ⟨by tauto, h2⟩
    · rw [if_neg h2]
      constructor
      · intro h; cases h
      · rintro ⟨-, h⟩
        exact absurd h h2

theorem mem_classifyChanges {γ : Type} (ents : List (String × Finset Key))
    (hN : (ents.map Prod.fst).Nodup) (classify : String → Finset Key → Option γ)
    (kid : String) (members : Finset Key) (hmem : (kid, members) ∈ ents)
    (ct : γ) :
    (kid, ct) ∈ ents.filterMap (fun p =>
        (classify p.1 p.2).map (fun c => (p.1, c))) ↔
      classify kid members = some ct := by
  rw [List.mem_filterMap]
  constructor
  · rintro ⟨p, hp, hmap⟩
    rcases Option.map_eq_some'.mp hmap with ⟨c0, hc0, heq⟩
    injection heq with h1 h2
    subst h1
    subst h2
    have hpm : p.2 = members := by
      have hp2 : (p.1, p.2) ∈ ents := by simpa using hp
      exact binding_unique hN hp2 hmem
    rw [← hpm]
    exact hc0
  · intro h
    exact ⟨(kid, members), hmem, by simp [h]⟩

/-- C3: `changes_since` classification.  For every current entity
`(kid, members)` in the current `source_record → kanoniv_id` grouping, the
changelog marks it `created` iff all members are new, `merged` iff its
members come from at least two prior entities, `grown` iff they come from
exactly one prior entity plus at least one new record; and every prior
entity is marked `removed` iff none of its members is present in the
current result, `split` iff its members scatter to at least two current
entities. -/
theorem changelog_classification (prev curr : ResultState) (kid : String)
    (members : Finset Key) :
    ((kid, members) ∈ groupPairs (buildSourceToKanoniv curr) →
      (((kid, ChangeType.created) ∈ (computeChanges prev curr).1 ↔
          ∀ m ∈ members, dlookup (buildSourceToKanoniv prev) m = none)
        ∧ ((kid, ChangeType.merged) ∈ (computeChanges prev curr).1 ↔
          ∃ m1 ∈ members, ∃ m2 ∈ members, ∃ k1 k2,
            dlookup (buildSourceToKanoniv prev) m1 = some k1
            ∧ dlookup (buildSourceToKanoniv prev) m2 = some k2 ∧ k1 ≠ k2)
        ∧ ((kid, ChangeType.grown) ∈ (computeChanges prev curr).1 ↔
          ((∃ k, (∃ m ∈ members, dlookup (buildSourceToKanoniv prev) m = some k)
            ∧ ∀ m ∈ members, ∀ k2,
                dlookup (buildSourceToKanoniv prev) m = some k2 → k2 = k)
          ∧ ∃ m ∈ members, dlookup (buildSourceToKanoniv prev) m = none))))
    ∧ ((kid, members) ∈ groupPairs (buildSourceToKanoniv prev) →
      (((kid, ChangeType.removed) ∈ (computeChanges prev curr).1 ↔
          ∀ m ∈ members, dlookup (buildSourceToKanoniv curr) m = none)
        ∧ ((kid, ChangeType.split) ∈ (computeChanges prev curr).1 ↔
          ∃ m1 ∈ members, ∃ m2 ∈ members, ∃ k1 k2,
            dlookup (buildSourceToKanoniv curr) m1 = some k1
            ∧ dlookup (buildSourceToKanoniv curr) m2 = some k2 ∧ k1 ≠ k2))) := by
  have hNpl := buildSourceToKanoniv_keys_nodup prev
  have hNcl := buildSourceToKanoniv_keys_nodup curr
  have hNgc := groupPairs_keys_nodup (buildSourceToKanoniv curr)
  have hNgp := groupPairs_keys_nodup (buildSourceToKanoniv prev)
  have hch : (computeChanges prev curr).1 =
      (groupPairs (buildSourceToKanoniv curr)).filterMap (fun p =>
        (classifyCurrent (buildSourceToKanoniv prev) p.2).map (fun ct => (p.1, ct)))
      ++ (groupPairs (buildSourceToKanoniv prev)).filterMap (fun p =>
        (classifyPrev (buildSourceToKanoniv curr)
          (seenKids (buildSourceToKanoniv prev)
            (groupPairs (buildSourceToKanoniv curr))) p.1 p.2).map
          (fun ct => (p.1, ct))) := rfl
  have hnotprev : ∀ ct : ChangeType, ct ≠ .removed → ct ≠ .split →
      ¬ (kid, ct) ∈ (groupPairs (buildSourceToKanoniv prev)).filterMap (fun p =>
        (classifyPrev (buildSourceToKanoniv curr)
          (seenKids (buildSourceToKanoniv prev)
            (groupPairs (buildSourceToKanoniv curr))) p.1 p.2).map
          (fun ct => (p.1, ct))) := by
    intro ct h1 h2 hmem
    rcases List.mem_filterMap.mp hmem with ⟨p, _, hmap⟩
    rcases Option.map_eq_some'.mp hmap with ⟨c0, hc0, heq⟩
    injection heq with heq1 heq2
    subst heq2
    rcases classifyPrev_types _ _ _ _ _ hc0 with h | h
    · exact h1 h
    · exact h2 h
  have hnotcurr : ∀ ct : ChangeType, ct ≠ .created → ct ≠ .merged →
      ct ≠ .grown →
      ¬ (kid, ct) ∈ (groupPairs (buildSourceToKanoniv curr)).filterMap (fun p =>
        (classifyCurrent (buildSourceToKanoniv prev) p.2).map
          (fun ct => (p.1, ct))) := by
    intro ct h1 h2 h3 hmem
    rcases List.mem_filterMap.mp hmem with ⟨p, _, hmap⟩
    rcases Option.map_eq_some'.mp hmap with ⟨c0, hc0, heq⟩
    injection heq with heq1 heq2
    subst heq2
    rcases classifyCurrent_types _ _ _ hc0 with h | h | h
    · exact h1 h
    · exact h2 h
    · exact h3 h
  constructor
  · intro hmemC
    have hcc := fun ct => mem_classifyChanges
      (groupPairs (buildSourceToKanoniv curr)) hNgc
      (fun _ s => classifyCurrent (buildSourceToKanoniv prev) s)
      kid members hmemC ct
    refine ⟨?_, ?_, ?_⟩
    · rw [hch, List.mem_append]
      rw [show ((kid, ChangeType.created) ∈ _ ∨ _) ↔ _ from
        or_iff_left (hnotprev .created (by simp) (by simp))]
      rw [hcc ChangeType.created]
      exact classifyCurrent_created_iff _ members
    · rw [hch, List.mem_append]
      rw [show ((kid, ChangeType.merged) ∈ _ ∨ _) ↔ _ from
        or_iff_left (hnotprev .merged (by simp) (by simp))]
      rw [hcc ChangeType.merged]
      exact classifyCurrent_merged_iff _ members
    · rw [hch, List.mem_append]
      rw [show ((kid, ChangeType.grown) ∈ _ ∨ _) ↔ _ from
        or_iff_left (hnotprev .grown (by simp) (by simp))]
      rw [hcc ChangeType.grown]
      exact classifyCurrent_grown_iff _ members
  · intro hmemP
    have hpc := fun ct => mem_classifyChanges
      (groupPairs (buildSourceToKanoniv prev)) hNgp
      (fun k s => classifyPrev (buildSourceToKanoniv curr)
        (seenKids (buildSourceToKanoniv prev)
          (groupPairs (buildSourceToKanoniv curr))) k s)
      kid members hmemP ct
    have hmembers : ∀ m, m ∈ members ↔
        dlookup (buildSourceToKanoniv prev) m = some kid := by
      intro m
      rcases (mem_groupPairs _ kid members).mp hmemP with ⟨hset, -⟩
      rw [hset]
      exact mem_groupSet_lookup _ hNpl kid m
    refine ⟨?_, ?_⟩
    · rw [hch, List.mem_append]
      rw [show ((kid, ChangeType.removed) ∈ _ ∨ _) ↔ _ from
        or_iff_right (hnotcurr .removed (by simp) (by simp) (by simp))]
      rw [hpc ChangeType.removed, classifyPrev_removed_iff,
        seen_iff _ _ hNcl kid]
      constructor
      · intro hno m hm
        cases hcl : dlookup (buildSourceToKanoniv curr) m with
        | none => rfl
        | some k2 =>
          exact absurd ⟨m, k2, hcl, (hmembers m).mp hm⟩ hno
      · rintro hall ⟨m, k2, hcl, hpl⟩
        have : m ∈ members := (hmembers m).mpr hpl
        rw [hall m this] at hcl
        cases hcl
    · rw [hch, List.mem_append]
      rw [show ((kid, ChangeType.split) ∈ _ ∨ _) ↔ _ from
        or_iff_right (hnotcurr .split (by simp) (by simp) (by simp))]
      rw [hpc ChangeType.split, classifyPrev_split_iff,
        prevKidsOf_card_lt_iff]
      constructor
      · rintro ⟨-, h⟩
        exact h
      · rintro ⟨m1, hm1, m2, hm2, k1, k2, h1, h2, hne⟩
        refine ⟨?_, ⟨m1, hm1, m2, hm2, k1, k2, h1, h2, hne⟩⟩
        rw [seen_iff _ _ hNcl kid]
        exact ⟨m1, k1, h1, (hmembers m1).mp hm1⟩

/-- A one-cluster previous result for the changelog witness. -/
def prevEx : ResultState :=
  { clusters := [["u1"]], golden_records := [[("kanoniv_id", "kidA")]],
    decisions := .null, telemetry := .null,
    entity_map := [("u1", ("s", "1"))], trained_fs_params := .null,
    spec_hash := none, entities := none, feedback := [] }

/-- The current result for the changelog witness: the cluster grew by one
record. -/
def currEx : ResultState :=
  { clusters := [["u1", "u2"]], golden_records := [[("kanoniv_id", "kidB")]],
    decisions := .null, telemetry := .null,
    entity_map := [("u1", ("s", "1")), ("u2", ("s", "2"))],
    trained_fs_params := .null, spec_hash := none, entities := none,
    feedback := [] }

/-- C3 witness: the classification equivalences at a concrete pair of runs
whose single current entity is a grown version of the prior one. -/
theorem changelog_classification_witness :
    (("kidB", ChangeType.created) ∈ (computeChanges prevEx currEx).1 ↔
      ∀ m ∈ ({("s", "1"), ("s", "2")} : Finset Key),
        dlookup (buildSourceToKanoniv prevEx) m = none) :=
  ((changelog_classification prevEx currEx "kidB"
    {("s", "1"), ("s", "2")}).1 (by decide)).1

end Kanoniv
